import Mathlib

/-!
Verification of the Arelle inline XBRL document set (IXDS) resolution engine.

This file shallowly embeds the parts of `src/arelle/inline/ixds/IxdsLoader.py`
and `src/arelle/inline/__init__.py` that the claims C1..C10 are about, and
proves or refutes each claim against that embedding.  Python dicts are
modelled as association lists with first-match lookup and in-place update,
Python sets as insertion-ordered duplicate-free lists, and Python string
sorting as code-point lexicographic order.
-/

namespace Arelle

/-- First-match association-list lookup, the model of Python dict indexing. -/
def alookup {α : Type} (m : List (String × α)) (k : String) : Option α :=
  match m with
  | [] => none
  | p :: rest => if p.1 = k then some p.2 else alookup rest k

/-- Python `dict[k] = v`: overwrite the binding if the key is present
(keeping insertion order), otherwise append a new binding. -/
def dictSet {α : Type} (m : List (String × α)) (k : String) (v : α) : List (String × α) :=
  match m with
  | [] => [(k, v)]
  | p :: rest => if p.1 = k then (k, v) :: rest else p :: dictSet rest k v

/-- Python `set.add`: insertion-ordered set represented as a duplicate-free list. -/
def addToSet (s : List String) (x : String) : List String :=
  if x ∈ s then s else s ++ [x]

/-- Fold a list of values into an insertion-ordered set. -/
def listToSet (l : List String) : List String :=
  l.foldl addToSet []

/-- Code-point lexicographic comparison of character lists, the model of
Python string comparison used by `sorted`. -/
def charListLe : List Char → List Char → Bool
  | [], _ => true
  | _ :: _, [] => false
  | a :: as, b :: bs =>
    if a.toNat < b.toNat then true
    else if b.toNat < a.toNat then false
    else charListLe as bs

/-- Python string `<=` (code-point lexicographic). -/
def strLe (a b : String) : Bool := charListLe a.data b.data

/-- Insert into a list sorted by the boolean comparator, the model of one step
of Python `sorted`. -/
def orderedInsertB {α : Type} (le : α → α → Bool) (x : α) : List α → List α
  | [] => [x]
  | y :: ys => if le x y then x :: y :: ys else y :: orderedInsertB le x ys

/-- Insertion sort by a boolean comparator, the model of Python `sorted`. -/
def insertionSortB {α : Type} (le : α → α → Bool) : List α → List α
  | [] => []
  | x :: xs => orderedInsertB le x (insertionSortB le xs)

theorem mem_orderedInsertB {α : Type} {le : α → α → Bool} {x a : α} {l : List α} :
    a ∈ orderedInsertB le x l ↔ a = x ∨ a ∈ l := by
  induction l with
  | nil => simp [orderedInsertB]
  | cons y ys ih =>
    simp only [orderedInsertB]
    split
    · simp
    · simp only [List.mem_cons, ih]
      tauto

theorem mem_insertionSortB {α : Type} {le : α → α → Bool} {a : α} {l : List α} :
    a ∈ insertionSortB le l ↔ a ∈ l := by
  induction l with
  | nil => simp [insertionSortB]
  | cons x xs ih =>
    simp only [insertionSortB, mem_orderedInsertB, ih, List.mem_cons]

theorem pairwise_orderedInsertB {α : Type} {le : α → α → Bool}
    (htot : ∀ a b, le a b = true ∨ le b a = true)
    (htrans : ∀ a b c, le a b = true → le b c = true → le a c = true)
    {x : α} {l : List α} (h : l.Pairwise (fun a b => le a b = true)) :
    (orderedInsertB le x l).Pairwise (fun a b => le a b = true) := by
  induction l with
  | nil => simp [orderedInsertB]
  | cons y ys ih =>
    rcases h with _ | ⟨hy, hys⟩
    simp only [orderedInsertB]
    split
    · rename_i hxy
      constructor
      · intro b hb
        rcases List.mem_cons.mp hb with rfl | hb
        · exact hxy
        · exact htrans _ _ _ hxy (hy _ hb)
      · exact List.Pairwise.cons hy hys
    · rename_i hxy
      have hyx : le y x = true := by
        rcases htot x y with h' | h'
        · exact absurd h' hxy
        · exact h'
      constructor
      · intro b hb
        rcases mem_orderedInsertB.mp hb with rfl | hb
        · exact hyx
        · exact hy _ hb
      · exact ih hys

theorem pairwise_insertionSortB {α : Type} {le : α → α → Bool}
    (htot : ∀ a b, le a b = true ∨ le b a = true)
    (htrans : ∀ a b c, le a b = true → le b c = true → le a c = true)
    (l : List α) :
    (insertionSortB le l).Pairwise (fun a b => le a b = true) := by
  induction l with
  | nil => simp [insertionSortB]
  | cons x xs ih => exact pairwise_orderedInsertB htot htrans ih

theorem charListLe_total : ∀ xs ys, charListLe xs ys = true ∨ charListLe ys xs = true := by
  intro xs
  induction xs with
  | nil => intro ys; left; rfl
  | cons a as ih =>
    intro ys
    cases ys with
    | nil => right; rfl
    | cons b bs =>
      simp only [charListLe]
      rcases Nat.lt_trichotomy a.toNat b.toNat with h | h | h
      · left; simp [h]
      · have h1 : ¬ a.toNat < b.toNat := by omega
        have h2 : ¬ b.toNat < a.toNat := by omega
        rw [if_neg h1, if_neg h2, if_neg h2, if_neg h1]
        exact ih bs
      · right; simp [h]

theorem charListLe_trans :
    ∀ xs ys zs, charListLe xs ys = true → charListLe ys zs = true →
      charListLe xs zs = true := by
  intro xs
  induction xs with
  | nil => intro ys zs _ _; rfl
  | cons a as ih =>
    intro ys zs h1 h2
    cases ys with
    | nil => simp [charListLe] at h1
    | cons b bs =>
      cases zs with
      | nil => simp [charListLe] at h2
      | cons c cs =>
        simp only [charListLe] at h1 h2 ⊢
        rcases Nat.lt_trichotomy a.toNat b.toNat with hab | hab | hab
        · rcases Nat.lt_trichotomy b.toNat c.toNat with hbc | hbc | hbc
          · have hac : a.toNat < c.toNat := by omega
            simp [hac]
          · have hac : a.toNat < c.toNat := by omega
            simp [hac]
          · rw [if_neg (by omega), if_pos hbc] at h2
            exact absurd h2 (by simp)
        · rcases Nat.lt_trichotomy b.toNat c.toNat with hbc | hbc | hbc
          · have hac : a.toNat < c.toNat := by omega
            simp [hac]
          · rw [if_neg (by omega), if_neg (by omega)] at h1
            rw [if_neg (by omega), if_neg (by omega)] at h2
            rw [if_neg (by omega), if_neg (by omega)]
            exact ih bs cs h1 h2
          · rw [if_neg (by omega), if_pos hbc] at h2
            exact absurd h2 (by simp)
        · rw [if_neg (by omega), if_pos hab] at h1
          exact absurd h1 (by simp)

theorem strLe_total (a b : String) : strLe a b = true ∨ strLe b a = true :=
  charListLe_total a.data b.data

theorem strLe_trans (a b c : String) : strLe a b = true → strLe b c = true →
    strLe a c = true :=
  charListLe_trans a.data b.data c.data

theorem charListLe_refl : ∀ xs, charListLe xs xs = true := by
  intro xs
  induction xs with
  | nil => rfl
  | cons a as ih =>
    simp only [charListLe]
    rw [if_neg (by omega), if_neg (by omega)]
    exact ih

theorem strLe_refl (a : String) : strLe a a = true :=
  charListLe_refl a.data

theorem mem_addToSet {s : List String} {x a : String} :
    a ∈ addToSet s x ↔ a ∈ s ∨ a = x := by
  simp only [addToSet]
  split
  · rename_i hx
    constructor
    · exact fun h => Or.inl h
    · rintro (h | rfl)
      · exact h
      · exact hx
  · simp

theorem mem_foldl_addToSet {l : List String} :
    ∀ {s : String} {acc : List String}, s ∈ l.foldl addToSet acc ↔ s ∈ acc ∨ s ∈ l := by
  induction l with
  | nil => simp
  | cons x xs ih =>
    intro s acc
    simp only [List.foldl_cons, ih, mem_addToSet, List.mem_cons]
    tauto

theorem mem_listToSet {l : List String} {a : String} : a ∈ listToSet l ↔ a ∈ l := by
  simp [listToSet, mem_foldl_addToSet]

/-! ## Target resolution (C2)

`src/arelle/inline/InlineConstants.py` and
`src/arelle/inline/ixds/IxdsLoader.py` lines 114-117 and 866-905. -/

/-- InlineConstants.DEFAULT_TARGET. -/
def DEFAULT_TARGET : String := "(default)"

/-- IxdsLoader lines 114-117, `_ixdsTargets`: the sorted set of the `target`
attributes of every `ix:references` element across the document set, in
document order, with a missing attribute defaulting to DEFAULT_TARGET.
Input is the document-order list of the raw `target` attributes. -/
def ixdsTargets (refTargets : List (Option String)) : List String :=
  insertionSortB strLe (listToSet (refTargets.map (fun a => a.getD DEFAULT_TARGET)))

/-- IxdsLoader line 905: `None if _target == DEFAULT_TARGET else _target or None`. -/
def optTarget (t : String) : Option String :=
  if t = DEFAULT_TARGET then none else if t = "" then none else some t

/-- The outcome of `selectTargetDocument`: the active target
(`modelXbrl.ixdsTarget`) and the queued supplemental passes
(`modelXbrl.targetIXDSesToLoad`, a list of pairs of target-name lists and the
html elements they are loaded over). Html elements are modelled by tokens. -/
structure TargetSelection where
  ixdsTarget : Option String
  targetIXDSesToLoad : List (List String × List Nat)
  deriving Repr, DecidableEq

/-- IxdsLoader lines 866-905, `selectTargetDocument`, in the case where no
external target override was supplied (`modelXbrl` has no `ixdsTarget` yet)
and no `InlineDocumentSet.IsolateSeparateIXDSes` plugin splits the set.  With
no declared target the default is used; with one it is selected; with several,
both the GUI branch and the headless branch insert
`[_targets[1:], modelXbrl.ixdsHtmlElements]` into the queue and activate
`_targets[0]` of the sorted target list. -/
def selectTargetDocument (ixdsHtmlElements : List Nat)
    (refTargets : List (Option String)) : TargetSelection :=
  match ixdsTargets refTargets with
  | [] => ⟨optTarget DEFAULT_TARGET, []⟩
  | [t] => ⟨optTarget t, []⟩
  | t :: rest => ⟨optTarget t, [(rest, ixdsHtmlElements)]⟩

/-- IxdsLoader lines 914-925, `targetDiscoveryCompleted`: each queued target
name produces one supplemental load over the queued html elements. -/
def supplementalLoads (toLoad : List (List String × List Nat)) :
    List (String × List Nat) :=
  toLoad.flatMap (fun p => p.1.map (fun t => (t, p.2)))

/-- C2 counterexample: with two targets declared in document order "b" then
"a", the first discovered target is "b", but target selection activates "a"
(the sorted-order first target) and queues "b" — so the claim that the first
target in document order becomes active is false on the code. -/
theorem c2_counterexample :
    (selectTargetDocument [0] [some "b", some "a"]).ixdsTarget = some "a" ∧
    (selectTargetDocument [0] [some "b", some "a"]).ixdsTarget ≠ some "b" ∧
    supplementalLoads
      (selectTargetDocument [0] [some "b", some "a"]).targetIXDSesToLoad =
      [("b", [0])] := by
  refine ⟨rfl, ?_, rfl⟩
  decide

/-- C2 (amended): when two or more distinct targets are declared and no
external override is supplied, the active target of the current pass is the
lexicographically least declared target (code-point order, the head of the
sorted target set), not the first one in document order; every other declared
target is queued, in sorted order, for a supplemental pass over the same
document set. -/
theorem c2_amended (ixdsHtmlElements : List Nat) (refTargets : List (Option String))
    (t r2 : String) (rest : List String)
    (hts : ixdsTargets refTargets = t :: r2 :: rest) :
    (selectTargetDocument ixdsHtmlElements refTargets).ixdsTarget = optTarget t ∧
    (selectTargetDocument ixdsHtmlElements refTargets).targetIXDSesToLoad =
      [(r2 :: rest, ixdsHtmlElements)] ∧
    supplementalLoads
        (selectTargetDocument ixdsHtmlElements refTargets).targetIXDSesToLoad =
      (r2 :: rest).map (fun u => (u, ixdsHtmlElements)) ∧
    (∀ a ∈ refTargets, strLe t (a.getD DEFAULT_TARGET) = true) ∧
    t ∈ refTargets.map (fun a => a.getD DEFAULT_TARGET) ∧
    (∀ a ∈ refTargets, a.getD DEFAULT_TARGET = t ∨ a.getD DEFAULT_TARGET ∈ r2 :: rest) ∧
    (r2 :: rest).Pairwise (fun a b => strLe a b = true) := by
  have hsorted : (ixdsTargets refTargets).Pairwise (fun a b => strLe a b = true) :=
    pairwise_insertionSortB strLe_total strLe_trans _
  rw [hts] at hsorted
  have hmem : ∀ s : String, s ∈ ixdsTargets refTargets ↔
      s ∈ refTargets.map (fun a => a.getD DEFAULT_TARGET) := by
    intro s
    simp [ixdsTargets, mem_insertionSortB, mem_listToSet]
  rcases hsorted with _ | ⟨hthead, htail⟩
  refine ⟨?_, ?_, ?_, ?_, ?_, ?_, htail⟩
  · simp only [selectTargetDocument, hts]
  · simp only [selectTargetDocument, hts]
  · simp only [selectTargetDocument, hts, supplementalLoads]
    simp
  · intro a ha
    have hin : a.getD DEFAULT_TARGET ∈ ixdsTargets refTargets := by
      rw [hmem]
      exact List.mem_map_of_mem _ ha
    rw [hts] at hin
    rcases List.mem_cons.mp hin with h | h
    · rw [h]; exact strLe_refl t
    · exact hthead _ h
  · rw [← hmem, hts]
    exact List.mem_cons_self t _
  · intro a ha
    have hin : a.getD DEFAULT_TARGET ∈ ixdsTargets refTargets := by
      rw [hmem]
      exact List.mem_map_of_mem _ ha
    rw [hts] at hin
    exact List.mem_cons.mp hin

/-- C2 witness: the amended theorem applied to the concrete two-target set. -/
theorem c2_amended_witness :
    ixdsTargets [some "b", some "a"] = ["a", "b"] ∧
    (selectTargetDocument [0] [some "b", some "a"]).ixdsTarget = optTarget "a" := by
  have h : ixdsTargets [some "b", some "a"] = ["a", "b"] := by decide
  exact ⟨h, (c2_amended [0] [some "b", some "a"] "a" "b" [] h).1⟩

/-! ## Continuation resolver (C3)

`src/arelle/inline/ixds/IxdsLoader.py` lines 467-509, `locateContinuation`. -/

/-- The static continuation data the walk consults.
`continuationElements` maps the id of each `ix:continuation` element to an
element token (IxdsLoader lines 290-292); `idObjects` maps ids of other
elements of the same document (`element.modelDocument.idObjects` as consulted
on line 474); `contAt` gives the `continuedAt` attribute of an element. -/
structure ContCfg where
  continuationElements : List (String × Nat)
  idObjects : List (String × Nat)
  contAt : Nat → Option String

/-- The error findings of `locateContinuation`'s while loop. -/
inductive ContErr where
  | continuationTarget (contAtId : String)
  | continuationMissing (contAtId : String)
  | continuationCycle (ids : List String)
  deriving Repr, DecidableEq

/-- The observable outcome of the continuation walk: the
`element._continuationElement = contElt` assignments made, the errors
reported, and the `continuationReferences[contAt].add(element)` records. -/
structure ContResult where
  attaches : List (Nat × Nat)
  errors : List ContErr
  refs : List (String × Nat)
  deriving Repr, DecidableEq

/-- IxdsLoader lines 470-497: the non-recursive `while contAt` walk of
`locateContinuation`, written as fuel-bounded recursion (the Python loop
terminates because the chain never revisits an element, so a fuel of
`continuationElements.length + 1` is enough; see `locateContinuation`).
`chain` is the chain list built so far (its last element is `element`), and
`contAtVal` is the current `contAt` value.  The cycle error message joins the
`continuedAt` ids of the chain elements, which are all present at that point
(modelled with `getD ""`). -/
def locateContinuationWalk (cfg : ContCfg) :
    Nat → List Nat → Nat → Option String → ContResult
  | 0, _, _, _ => ⟨[], [], []⟩
  | fuel + 1, chain, element, contAtVal =>
    match contAtVal with
    | none => ⟨[], [], []⟩
    | some contAtId =>
      match alookup cfg.continuationElements contAtId with
      | none =>
        match alookup cfg.idObjects contAtId with
        | some _ => ⟨[], [ContErr.continuationTarget contAtId], [(contAtId, element)]⟩
        | none => ⟨[], [ContErr.continuationMissing contAtId], [(contAtId, element)]⟩
      | some contElt =>
        if contElt ∈ chain then
          ⟨[], [ContErr.continuationCycle
                  (chain.map (fun e => (cfg.contAt e).getD ""))],
            [(contAtId, element)]⟩
        else
          let rest := locateContinuationWalk cfg fuel (chain ++ [contElt]) contElt
            (cfg.contAt contElt)
          ⟨(element, contElt) :: rest.attaches, rest.errors,
            (contAtId, element) :: rest.refs⟩

/-- IxdsLoader lines 467-470: `locateContinuation` starts the walk at an
element carrying a `continuedAt` attribute with the chain `[element]`.  (The
descendant-nesting check of lines 498-509 is a separate pass after the loop
and is not part of the walk modelled here.) -/
def locateContinuation (cfg : ContCfg) (element : Nat) : ContResult :=
  match cfg.contAt element with
  | some a =>
      locateContinuationWalk cfg (cfg.continuationElements.length + 1)
        [element] element (some a)
  | none => ⟨[], [], []⟩

/-- C3: at any state of the continuation walk, if the referenced continuation
element is already a member of the chain being built, the walk reports exactly
one continuation-cycle error naming the id sequence of the chain (the
`continuedAt` ids of its elements), makes no further attachment — in
particular the continuation pointer of the element that closed the cycle is
never set — and stops. -/
theorem locateContinuation_cycle (cfg : ContCfg) (fuel : Nat) (chain : List Nat)
    (element : Nat) (contAtId : String) (contElt : Nat)
    (hfound : alookup cfg.continuationElements contAtId = some contElt)
    (hinChain : contElt ∈ chain) :
    locateContinuationWalk cfg (fuel + 1) chain element (some contAtId) =
      ⟨[], [ContErr.continuationCycle (chain.map (fun e => (cfg.contAt e).getD ""))],
        [(contAtId, element)]⟩ := by
  simp only [locateContinuationWalk, hfound, if_pos hinChain]

/-- C3 witness: a concrete one-element cycle. Element 0 is a fact continued at
"c1"; element 1 is the `ix:continuation` with id "c1" whose own `continuedAt`
is again "c1".  Resolving element 0 attaches element 1 once, then detects the
cycle ["c1", "c1"] without attaching the repeating link. -/
theorem locateContinuation_cycle_witness :
    alookup (ContCfg.mk [("c1", 1)] []
        (fun n => if n = 0 then some "c1" else if n = 1 then some "c1" else none)).continuationElements
        "c1" = some 1 ∧
    (1 : Nat) ∈ [0, 1] ∧
    locateContinuationWalk
        (ContCfg.mk [("c1", 1)] []
          (fun n => if n = 0 then some "c1" else if n = 1 then some "c1" else none))
        3 [0, 1] 1 (some "c1") =
      ⟨[], [ContErr.continuationCycle ["c1", "c1"]], [("c1", 1)]⟩ :=
  ⟨rfl, by decide,
    locateContinuation_cycle
      (ContCfg.mk [("c1", 1)] []
        (fun n => if n = 0 then some "c1" else if n = 1 then some "c1" else none))
      2 [0, 1] 1 "c1" 1 rfl (by decide)⟩

/-! ## Context/unit scope resolver (C6)

`src/arelle/inline/ixds/IxdsLoader.py` lines 255-259 (the
`assignUnusedContextsUnits` condition) and 385-397 (context/unit discovery).
Contexts and units are handled by the same rule, so one model covers both. -/

/-- The state `ixdsDiscover` consults when deciding which contexts/units to
discover.  `factRefs` lists, for every `ix:nonNumeric`/`ix:nonFraction`/
`ix:fraction` fact of the set, the pair of its `target` attribute and its
`contextRef` (or `unitRef`) attribute, as collected into
`factTargetContextRefs`/`factTargetUnitRefs` on lines 283-287.
`targetIXDSesToLoad` pairs queued target-name lists with the html-element
tokens they will be loaded over; `ixdsHtmlElements` are the current set's
html-element tokens (modelling the documents compared on lines 257-259). -/
structure ScopeCfg where
  setTargetModelXbrl : Bool
  ixdsTarget : Option String
  hasSupplementalModelXbrls : Bool
  targetIXDSesToLoad : List (List String × List Nat)
  ixdsHtmlElements : List Nat
  factRefs : List (Option String × Option String)
  deriving Repr, DecidableEq

/-- Python set equality of two element lists (order-insensitive membership). -/
def listSetEq (a b : List Nat) : Bool :=
  a.all (fun x => x ∈ b) && b.all (fun x => x ∈ a)

/-- IxdsLoader lines 255-259: `assignUnusedContextsUnits` is true only when no
supplemental target model is being populated, the active target is the
default one (`ixdsTarget` is `None`), no supplemental models exist, and
either no target passes are queued or the queued passes cover exactly the
same documents. -/
def assignUnusedContextsUnits (cfg : ScopeCfg) : Bool :=
  !cfg.setTargetModelXbrl && cfg.ixdsTarget.isNone && !cfg.hasSupplementalModelXbrls &&
    (cfg.targetIXDSesToLoad.isEmpty ||
      listSetEq cfg.ixdsHtmlElements (cfg.targetIXDSesToLoad.flatMap (fun p => p.2)))

/-- IxdsLoader line 286-287/379: `factTargetContextRefs[ixdsTarget]` — the
contextRef (or unitRef) values of the facts whose target is `t`. -/
def factTargetRefs (cfg : ScopeCfg) (t : Option String) : List (Option String) :=
  (cfg.factRefs.filter (fun p => p.1 = t)).map (fun p => p.2)

/-- IxdsLoader lines 381-382: the union of the contextRef (or unitRef) values
over all targets. -/
def allTargetRefs (cfg : ScopeCfg) : List (Option String) :=
  cfg.factRefs.map (fun p => p.2)

/-- IxdsLoader lines 390-397: a declared context (or unit) with id `id` is
discovered into the active target's scope iff its id is referenced by a fact
of the active target, or `assignUnusedContextsUnits` holds and its id is
referenced by no fact of any target. -/
def resourceDiscovered (cfg : ScopeCfg) (id : Option String) : Bool :=
  id ∈ factTargetRefs cfg cfg.ixdsTarget ||
    (assignUnusedContextsUnits cfg && !(id ∈ allTargetRefs cfg))

/-- C6 counterexample: a document set whose only target overall is the named
target "T1" (one declared target, no splitting, no queued or supplemental
passes).  The context "c1" is referenced by no fact in any target, yet it is
NOT discovered into the active target's scope, because the code additionally
requires the active target to be the default target (`ixdsTarget` `None`)
before adopting unreferenced declarations. -/
theorem resourceDiscovered_counterexample :
    resourceDiscovered
        (ScopeCfg.mk false (some "T1") false [] [0]
          [(some "T1", some "c2")])
        (some "c1") = false ∧
    ¬ some "c1" ∈ allTargetRefs
        (ScopeCfg.mk false (some "T1") false [] [0]
          [(some "T1", some "c2")]) := by
  constructor
  · rfl
  · decide

/-- C6 (amended): when the active target is the default target and the set has
only one target overall (no queued target passes, no supplemental models, not
a supplemental pass itself), every declared context or unit referenced by no
fact in any target is discovered into the active target's scope; and
independently of that condition, every context or unit referenced by a fact of
the active target is discovered. -/
theorem resourceDiscovered_amended (cfg : ScopeCfg) (id : Option String)
    (hSet : cfg.setTargetModelXbrl = false)
    (hTarget : cfg.ixdsTarget = none)
    (hSuppl : cfg.hasSupplementalModelXbrls = false)
    (hQueue : cfg.targetIXDSesToLoad = []) :
    (¬ id ∈ allTargetRefs cfg → resourceDiscovered cfg id = true) ∧
    (id ∈ factTargetRefs cfg cfg.ixdsTarget → resourceDiscovered cfg id = true) := by
  constructor
  · intro hUnref
    have hAssign : assignUnusedContextsUnits cfg = true := by
      simp [assignUnusedContextsUnits, hSet, hTarget, hSuppl, hQueue]
    simp [resourceDiscovered, hAssign, hUnref]
  · intro hRef
    simp [resourceDiscovered, hRef]

/-- C6 witness: the amended theorem at a concrete single-default-target set
with an orphan context "c1" and a referenced context "c2". -/
theorem resourceDiscovered_amended_witness :
    (¬ some "c1" ∈ allTargetRefs (ScopeCfg.mk false none false [] [0] [(none, some "c2")]) →
      resourceDiscovered (ScopeCfg.mk false none false [] [0] [(none, some "c2")])
        (some "c1") = true) ∧
    ((some "c1" : Option String) ∉
        allTargetRefs (ScopeCfg.mk false none false [] [0] [(none, some "c2")])) ∧
    resourceDiscovered (ScopeCfg.mk false none false [] [0] [(none, some "c2")])
        (some "c1") = true := by
  have h := resourceDiscovered_amended
    (ScopeCfg.mk false none false [] [0] [(none, some "c2")]) (some "c1")
    rfl rfl rfl rfl
  have hm : (some "c1" : Option String) ∉
      allTargetRefs (ScopeCfg.mk false none false [] [0] [(none, some "c2")]) := by
    decide
  exact ⟨h.1, hm, h.1 hm⟩

/-! ## Tuple assembler: locating a fact in its tuple (C10)

`src/arelle/inline/ixds/IxdsLoader.py` lines 431-465, `locateFactInTuple`. -/

/-- A tuple as found through `tuplesByTupleID` or as a structural ancestor:
its element token and its `target` attribute. -/
structure TupleEntry where
  token : Nat
  target : Option String
  deriving Repr, DecidableEq

/-- The nearest `ix:*` ancestor of a fact (IxdsLoader lines 442-445 examine
only the first ancestor produced by `iterancestors` — the `break` is
unconditional): its token, whether its local name is "tuple", and its
`target` attribute. -/
structure IxAncestor where
  token : Nat
  isTuple : Bool
  target : Option String
  deriving Repr, DecidableEq

/-- A fact as seen by `locateFactInTuple`: its `tupleRef` attribute, its
numeric `order` (None when the attribute is missing or failed validation,
line 447), its `target` attribute, and its nearest `ix:*` ancestor. -/
structure LFact where
  tupleRef : Option String
  order : Option Int
  target : Option String
  nearestIxAncestor : Option IxAncestor
  deriving Repr, DecidableEq

/-- Error findings of `locateFactInTuple`. -/
inductive LFErr where
  | tupleRefMissing (tupleRef : String)
  | tupleMemberOrderMissing
  | tupleMemberDifferentTarget
  deriving Repr, DecidableEq

/-- The `_ixFactParent` assignment target. -/
inductive ParentRef where
  | tupleParent (token : Nat)
  | rootParent (target : Option String)
  deriving Repr, DecidableEq

/-- The observable outcome of `locateFactInTuple`: the errors reported, the
`tuple.unorderedTupleFacts[order].append(fact)` record (tuple token and order
key) if any, whether the fact was appended to the root-level
`modelXbrl.facts` list, and the `_ixFactParent` assignment if any. -/
structure LocResult where
  errors : List LFErr
  membership : Option (Nat × Int)
  rootFactAdded : Bool
  ixFactParent : Option ParentRef
  deriving Repr, DecidableEq

/-- IxdsLoader lines 432-445: resolve the fact's tuple parent — via the
explicit `tupleRef` when present (None with an error when the id is not a
tupleID), else via the nearest `ix:*` ancestor when that ancestor is a
tuple. Returns the pre-errors and the resolved tuple. -/
def resolveTupleParent (tuplesByTupleID : List (String × TupleEntry))
    (fact : LFact) : List LFErr × Option TupleEntry :=
  match fact.tupleRef with
  | some tr =>
    match alookup tuplesByTupleID tr with
    | none => ([LFErr.tupleRefMissing tr], none)
    | some t => ([], some t)
  | none =>
    match fact.nearestIxAncestor with
    | some anc =>
      ([], if anc.isTuple then some (TupleEntry.mk anc.token anc.target) else none)
    | none => ([], none)

/-- IxdsLoader lines 431-465, `locateFactInTuple`.  With a resolved tuple: the
fact is recorded under its numeric order when present, else a
tuple-member-order-missing error is reported and nothing is recorded; the
parent pointer is set only when the fact's target equals the tuple's target
(else a different-target error).  With no tuple: the fact is appended to the
root-level fact list when its target is the active target, and its parent is
the target's synthesized root (falling back to the default root when no root
exists for its target, lines 462-465).  `rootTargets` lists the targets for
which `ixTargetRootElements` holds a root. -/
def locateFactInTuple (ixdsTarget : Option String)
    (tuplesByTupleID : List (String × TupleEntry))
    (rootTargets : List (Option String)) (fact : LFact) : LocResult :=
  let pre := resolveTupleParent tuplesByTupleID fact
  match pre.2 with
  | some t =>
    { errors := pre.1 ++
        (match fact.order with
         | some _ => []
         | none => [LFErr.tupleMemberOrderMissing]) ++
        (if fact.target = t.target then [] else [LFErr.tupleMemberDifferentTarget]),
      membership := fact.order.map (fun o => (t.token, o)),
      rootFactAdded := false,
      ixFactParent := if fact.target = t.target then some (ParentRef.tupleParent t.token)
        else none }
  | none =>
    { errors := pre.1,
      membership := none,
      rootFactAdded := decide (fact.target = ixdsTarget),
      ixFactParent := if fact.target ∈ rootTargets then some (ParentRef.rootParent fact.target)
        else some (ParentRef.rootParent none) }

/-- C10: every fact that resolves to a tuple parent (by explicit tupleRef or
by nearest structural tuple ancestor) but whose numeric order is absent or
invalid gets a tuple-member-order-missing error, is recorded in no tuple's
order-keyed membership, and is appended to no target's root-level fact
list. -/
theorem locateFactInTuple_orderMissing (ixdsTarget : Option String)
    (tuplesByTupleID : List (String × TupleEntry))
    (rootTargets : List (Option String)) (fact : LFact) (t : TupleEntry)
    (htup : (resolveTupleParent tuplesByTupleID fact).2 = some t)
    (horder : fact.order = none) :
    LFErr.tupleMemberOrderMissing ∈
        (locateFactInTuple ixdsTarget tuplesByTupleID rootTargets fact).errors ∧
    (locateFactInTuple ixdsTarget tuplesByTupleID rootTargets fact).membership = none ∧
    (locateFactInTuple ixdsTarget tuplesByTupleID rootTargets fact).rootFactAdded
      = false := by
  simp [locateFactInTuple, htup, horder]

/-- C10 witness: a concrete fact inside tuple "t1" (explicit tupleRef) whose
order attribute is missing. -/
theorem locateFactInTuple_orderMissing_witness :
    (resolveTupleParent [("t1", TupleEntry.mk 7 none)]
        (LFact.mk (some "t1") none none none)).2 = some (TupleEntry.mk 7 none) ∧
    LFErr.tupleMemberOrderMissing ∈
      (locateFactInTuple none [("t1", TupleEntry.mk 7 none)] [none]
        (LFact.mk (some "t1") none none none)).errors ∧
    (locateFactInTuple none [("t1", TupleEntry.mk 7 none)] [none]
        (LFact.mk (some "t1") none none none)).membership = none ∧
    (locateFactInTuple none [("t1", TupleEntry.mk 7 none)] [none]
        (LFact.mk (some "t1") none none none)).rootFactAdded = false := by
  have h := locateFactInTuple_orderMissing none [("t1", TupleEntry.mk 7 none)] [none]
    (LFact.mk (some "t1") none none none) (TupleEntry.mk 7 none) (by decide) rfl
  exact ⟨by decide, h⟩

/-! ## Element index (C7)

`src/arelle/inline/ixds/IxdsLoader.py` lines 228-232 (`ixdsEltById`),
264-292 (`tuplesByTupleID`, `factsByFactID`). -/

theorem alookup_append {α : Type} (m1 m2 : List (String × α)) (k : String) :
    alookup (m1 ++ m2) k =
      match alookup m1 k with
      | some v => some v
      | none => alookup m2 k := by
  induction m1 with
  | nil => rfl
  | cons p rest ih =>
    simp only [List.cons_append, alookup]
    split <;> simp [ih]

theorem alookup_dictSet_self {α : Type} (m : List (String × α)) (k : String) (v : α) :
    alookup (dictSet m k v) k = some v := by
  induction m with
  | nil => simp [dictSet, alookup]
  | cons p rest ih =>
    simp only [dictSet]
    split
    · simp [alookup]
    · rename_i hne
      simp only [alookup, if_neg hne]
      exact ih

theorem alookup_dictSet_ne {α : Type} (m : List (String × α)) (k v : _) (k' : String)
    (h : k ≠ k') : alookup (dictSet m k (v : α)) k' = alookup m k' := by
  induction m with
  | nil => simp [dictSet, alookup, h]
  | cons p rest ih =>
    simp only [dictSet]
    split
    · rename_i hp
      simp only [alookup, if_neg h, hp]
    · simp only [alookup]
      split
      · rfl
      · exact ih

/-- An element of the document set as seen by the index-building loops of
`ixdsDiscover` (lines 228-292), in processing order (per document: tuples
first, then item facts, then other elements).  `isFact` marks the elements
indexed into `factsByFactID` (tuples with a qname and item facts, lines
280-281 and 288-289); `isTuple` marks `ix:tuple` elements (whose `tupleID`
attribute feeds `tuplesByTupleID`, lines 268-276). -/
structure IdxElt where
  token : Nat
  isFact : Bool
  isTuple : Bool
  id : Option String
  tupleID : Option String
  deriving Repr, DecidableEq

/-- The error findings of the tupleID indexing loop. -/
inductive IdxErr where
  | tupleIdDuplication (tupleID : String) (duplicate firstKept : Nat)
  deriving Repr, DecidableEq

/-- IxdsLoader lines 228-232: `ixdsEltById` records every element carrying an
id, so duplicate ids all stay in the by-id list. -/
def ixdsEltById (elts : List IdxElt) (i : String) : List Nat :=
  (elts.filter (fun e => e.id == some i)).map (fun e => e.token)

/-- IxdsLoader lines 280-281 and 288-289: `factsByFactID[elt.id] = elt` —
plain dict assignment, so a later element with the same id overwrites an
earlier one. -/
def factStep (m : List (String × Nat)) (e : IdxElt) : List (String × Nat) :=
  if e.isFact then
    match e.id with
    | some i => dictSet m i e.token
    | none => m
  else m

/-- The `factsByFactID` index over the whole document set. -/
def factsByFactID (elts : List IdxElt) : List (String × Nat) :=
  elts.foldl factStep []

/-- IxdsLoader lines 268-276: `tuplesByTupleID` keeps the first occurrence of
each `tupleID` and reports a `tupleIdDuplication` error for every later
occurrence. -/
def tupleIdStep (acc : List (String × Nat) × List IdxErr) (e : IdxElt) :
    List (String × Nat) × List IdxErr :=
  if e.isTuple then
    match e.tupleID with
    | some t =>
      match alookup acc.1 t with
      | none => (acc.1 ++ [(t, e.token)], acc.2)
      | some first => (acc.1, acc.2 ++ [IdxErr.tupleIdDuplication t e.token first])
    | none => acc
  else acc

/-- The `tuplesByTupleID` index over the whole document set. -/
def tuplesByTupleID (elts : List IdxElt) : List (String × Nat) :=
  (elts.foldl tupleIdStep ([], [])).1

/-- The tupleID-duplication errors reported while indexing. -/
def tupleIdErrors (elts : List IdxElt) : List IdxErr :=
  (elts.foldl tupleIdStep ([], [])).2

theorem factsByFactID_foldl (l : List IdxElt) :
    ∀ (m : List (String × Nat)) (i : String),
      alookup (l.foldl factStep m) i =
        match (l.filter (fun e => e.isFact && e.id == some i)).getLast? with
        | some e => some e.token
        | none => alookup m i := by
  induction l with
  | nil => intro m i; rfl
  | cons e rest ih =>
    intro m i
    simp only [List.foldl_cons, List.filter_cons]
    by_cases hmatch : (e.isFact && e.id == some i) = true
    · rw [if_pos hmatch]
      have hfact : e.isFact = true := by
        simpa using (Bool.and_eq_true_iff.mp hmatch).1
      have hid : e.id = some i := by
        have := (Bool.and_eq_true_iff.mp hmatch).2
        simpa using this
      have hstep : factStep m e = dictSet m i e.token := by
        simp [factStep, hfact, hid]
      rw [hstep, ih]
      cases hfl : (rest.filter (fun e => e.isFact && e.id == some i)) with
      | nil => simp [alookup_dictSet_self]
      | cons x xs =>
        cases hgl : (x :: xs).getLast? with
        | none => simp at hgl
        | some y => simp [hgl]
    · rw [if_neg hmatch]
      have hstep : alookup (factStep m e) i = alookup m i := by
        cases hfact : e.isFact with
        | false => simp [factStep, hfact]
        | true =>
          cases hid : e.id with
          | none => simp [factStep, hfact, hid]
          | some j =>
            have hji : j ≠ i := by
              intro hji
              apply hmatch
              simp [hfact, hid, hji]
            have hs : factStep m e = dictSet m j e.token := by
              simp [factStep, hfact, hid]
            rw [hs, alookup_dictSet_ne m j e.token i hji]
      rw [ih]
      cases hfl : (rest.filter (fun e => e.isFact && e.id == some i)) with
      | nil => simp [hstep]
      | cons x xs =>
        cases hgl : (x :: xs).getLast? with
        | none => simp at hgl
        | some y => simp [hgl]

theorem tuplesByTupleID_foldl (l : List IdxElt) :
    ∀ (acc : List (String × Nat) × List IdxErr) (t : String),
      alookup ((l.foldl tupleIdStep acc).1) t =
        match alookup acc.1 t with
        | some v => some v
        | none =>
          ((l.filter (fun e => e.isTuple && e.tupleID == some t)).head?).map
            (fun e => e.token) := by
  induction l with
  | nil =>
    intro acc t
    cases h : alookup acc.1 t <;> simp [h]
  | cons e rest ih =>
    intro acc t
    simp only [List.foldl_cons, List.filter_cons]
    by_cases hmatch : (e.isTuple && e.tupleID == some t) = true
    · rw [if_pos hmatch]
      have htup : e.isTuple = true := by
        simpa using (Bool.and_eq_true_iff.mp hmatch).1
      have hid : e.tupleID = some t := by
        have := (Bool.and_eq_true_iff.mp hmatch).2
        simpa using this
      cases hacc : alookup acc.1 t with
      | none =>
        have hstep : tupleIdStep acc e = (acc.1 ++ [(t, e.token)], acc.2) := by
          simp [tupleIdStep, htup, hid, hacc]
        rw [hstep, ih]
        have hl : alookup (acc.1 ++ [(t, e.token)]) t = some e.token := by
          rw [alookup_append, hacc]
          simp [alookup]
        simp [hl, hacc]
      | some first =>
        have hstep : tupleIdStep acc e =
            (acc.1, acc.2 ++ [IdxErr.tupleIdDuplication t e.token first]) := by
          simp [tupleIdStep, htup, hid, hacc]
        rw [hstep, ih]
        simp [hacc]
    · rw [if_neg hmatch]
      have hstep : alookup (tupleIdStep acc e).1 t = alookup acc.1 t := by
        cases htup : e.isTuple with
        | false => simp [tupleIdStep, htup]
        | true =>
          cases hid : e.tupleID with
          | none => simp [tupleIdStep, htup, hid]
          | some s =>
            have hst : s ≠ t := by
              intro hst
              apply hmatch
              simp [htup, hid, hst]
            cases hacc : alookup acc.1 s with
            | none =>
              have hs : tupleIdStep acc e = (acc.1 ++ [(s, e.token)], acc.2) := by
                simp [tupleIdStep, htup, hid, hacc]
              rw [hs]
              show alookup (acc.1 ++ [(s, e.token)]) t = alookup acc.1 t
              rw [alookup_append]
              cases h1 : alookup acc.1 t with
              | none => simp [alookup, hst]
              | some v => simp
            | some first =>
              have hs : tupleIdStep acc e =
                  (acc.1, acc.2 ++ [IdxErr.tupleIdDuplication s e.token first]) := by
                simp [tupleIdStep, htup, hid, hacc]
              rw [hs]
      rw [ih, hstep]

theorem tupleIdErrors_foldl (l : List IdxElt) :
    ∀ (acc : List (String × Nat) × List IdxErr) (t : String),
      ((∃ a b, IdxErr.tupleIdDuplication t a b ∈ (l.foldl tupleIdStep acc).2) ↔
        ((∃ a b, IdxErr.tupleIdDuplication t a b ∈ acc.2) ∨
          (alookup acc.1 t ≠ none ∧
            1 ≤ (l.filter (fun e => e.isTuple && e.tupleID == some t)).length) ∨
          2 ≤ (l.filter (fun e => e.isTuple && e.tupleID == some t)).length)) := by
  induction l with
  | nil =>
    intro acc t
    simp
  | cons e rest ih =>
    intro acc t
    simp only [List.foldl_cons, List.filter_cons]
    by_cases hmatch : (e.isTuple && e.tupleID == some t) = true
    · rw [if_pos hmatch]
      have htup : e.isTuple = true := by
        simpa using (Bool.and_eq_true_iff.mp hmatch).1
      have hid : e.tupleID = some t := by
        have := (Bool.and_eq_true_iff.mp hmatch).2
        simpa using this
      cases hacc : alookup acc.1 t with
      | none =>
        have hstep : tupleIdStep acc e = (acc.1 ++ [(t, e.token)], acc.2) := by
          simp [tupleIdStep, htup, hid, hacc]
        rw [hstep, ih]
        have hl : alookup (acc.1 ++ [(t, e.token)]) t = some e.token := by
          rw [alookup_append, hacc]
          simp [alookup]
        simp only [hacc, hl, List.length_cons]
        constructor
        · rintro (h | h | h)
          · exact Or.inl h
          · right; right; omega
          · right; right; omega
        · rintro (h | h | h)
          · exact Or.inl h
          · simp at h
          · right; left
            exact ⟨by simp, by omega⟩
      | some first =>
        have hstep : tupleIdStep acc e =
            (acc.1, acc.2 ++ [IdxErr.tupleIdDuplication t e.token first]) := by
          simp [tupleIdStep, htup, hid, hacc]
        rw [hstep, ih]
        simp only [hacc, List.length_cons, List.mem_append, List.mem_singleton]
        constructor
        · intro _
          right; left
          exact ⟨by simp, by omega⟩
        · intro _
          left
          exact ⟨e.token, first, Or.inr rfl⟩
    · rw [if_neg hmatch]
      have hstep1 : alookup (tupleIdStep acc e).1 t = alookup acc.1 t := by
        cases htup : e.isTuple with
        | false => simp [tupleIdStep, htup]
        | true =>
          cases hid : e.tupleID with
          | none => simp [tupleIdStep, htup, hid]
          | some s =>
            have hst : s ≠ t := by
              intro hst
              apply hmatch
              simp [htup, hid, hst]
            cases hacc : alookup acc.1 s with
            | none =>
              have hs : tupleIdStep acc e = (acc.1 ++ [(s, e.token)], acc.2) := by
                simp [tupleIdStep, htup, hid, hacc]
              rw [hs]
              show alookup (acc.1 ++ [(s, e.token)]) t = alookup acc.1 t
              rw [alookup_append]
              cases h1 : alookup acc.1 t with
              | none => simp [alookup, hst]
              | some v => simp
            | some first =>
              have hs : tupleIdStep acc e =
                  (acc.1, acc.2 ++ [IdxErr.tupleIdDuplication s e.token first]) := by
                simp [tupleIdStep, htup, hid, hacc]
              rw [hs]
      have hstep2 : (∃ a b, IdxErr.tupleIdDuplication t a b ∈ (tupleIdStep acc e).2) ↔
          (∃ a b, IdxErr.tupleIdDuplication t a b ∈ acc.2) := by
        cases htup : e.isTuple with
        | false => simp [tupleIdStep, htup]
        | true =>
          cases hid : e.tupleID with
          | none => simp [tupleIdStep, htup, hid]
          | some s =>
            cases hacc : alookup acc.1 s with
            | none =>
              have hs : tupleIdStep acc e = (acc.1 ++ [(s, e.token)], acc.2) := by
                simp [tupleIdStep, htup, hid, hacc]
              rw [hs]
            | some first =>
              have hst : s ≠ t := by
                intro hst
                apply hmatch
                simp [htup, hid, hst]
              have hs : tupleIdStep acc e =
                  (acc.1, acc.2 ++ [IdxErr.tupleIdDuplication s e.token first]) := by
                simp [tupleIdStep, htup, hid, hacc]
              rw [hs]
              simp only [List.mem_append, List.mem_singleton]
              constructor
              · rintro ⟨a, b, h | h⟩
                · exact ⟨a, b, h⟩
                · cases h
                  exact absurd rfl hst
              · rintro ⟨a, b, h⟩
                exact ⟨a, b, Or.inl h⟩
      rw [ih, hstep1, hstep2]

/-- C7 counterexample: two distinct item facts both declare id "x".  The
resolution index `factsByFactID` retains the LAST occurrence (token 1), not
the first, and no error is logged by the indexing (the by-id list keeps
both).  So the claim that a duplicate id logs an error and that lookups
resolve to the first-indexed element is false on the code for fact ids. -/
theorem duplicateFactId_counterexample :
    alookup (factsByFactID
        [IdxElt.mk 0 true false (some "x") none,
         IdxElt.mk 1 true false (some "x") none]) "x" = some 1 ∧
    tupleIdErrors
        [IdxElt.mk 0 true false (some "x") none,
         IdxElt.mk 1 true false (some "x") none] = [] ∧
    ixdsEltById
        [IdxElt.mk 0 true false (some "x") none,
         IdxElt.mk 1 true false (some "x") none] "x" = [0, 1] := by
  refine ⟨rfl, rfl, rfl⟩

/-- C7 (amended): duplicate ids are handled differently by the two indexes.
For `tupleID` declarations, the first occurrence is retained and every later
duplicate logs a (non-fatal) tupleIdDuplication error; for fact ids,
`factsByFactID` retains the LAST occurrence and the indexing itself logs no
error (duplicate fact ids at this stage merely accumulate in `ixdsEltById`,
where every occurrence is retained). -/
theorem duplicateId_amended (elts : List IdxElt) (t i : String) :
    (alookup (tuplesByTupleID elts) t =
      ((elts.filter (fun e => e.isTuple && e.tupleID == some t)).head?).map
        (fun e => e.token)) ∧
    (2 ≤ (elts.filter (fun e => e.isTuple && e.tupleID == some t)).length →
      ∃ a b, IdxErr.tupleIdDuplication t a b ∈ tupleIdErrors elts) ∧
    (alookup (factsByFactID elts) i =
      ((elts.filter (fun e => e.isFact && e.id == some i)).getLast?).map
        (fun e => e.token)) := by
  refine ⟨?_, ?_, ?_⟩
  · have h := tuplesByTupleID_foldl elts ([], []) t
    simpa [tuplesByTupleID, alookup] using h
  · intro h2
    have h := (tupleIdErrors_foldl elts ([], []) t).mpr
    simp only [tupleIdErrors]
    apply h
    right; right
    exact h2
  · have h := factsByFactID_foldl elts [] i
    simp only [factsByFactID]
    rw [h]
    cases hfl : (elts.filter (fun e => e.isFact && e.id == some i)).getLast? with
    | none => simp [alookup]
    | some e => simp

/-- C7 witness: the amended theorem at the concrete duplicate-id document set
(two tuples sharing tupleID "t" and two facts sharing id "x"). -/
theorem duplicateId_amended_witness :
    (alookup (tuplesByTupleID
        [IdxElt.mk 0 true true (some "x") (some "t"),
         IdxElt.mk 1 true true (some "x") (some "t")]) "t" = some 0) ∧
    (∃ a b, IdxErr.tupleIdDuplication "t" a b ∈ tupleIdErrors
        [IdxElt.mk 0 true true (some "x") (some "t"),
         IdxElt.mk 1 true true (some "x") (some "t")]) ∧
    (alookup (factsByFactID
        [IdxElt.mk 0 true true (some "x") (some "t"),
         IdxElt.mk 1 true true (some "x") (some "t")]) "x" = some 1) := by
  have h := duplicateId_amended
    [IdxElt.mk 0 true true (some "x") (some "t"),
     IdxElt.mk 1 true true (some "x") (some "t")] "t" "x"
  refine ⟨?_, h.2.1 (by decide), ?_⟩
  · rw [h.1]; rfl
  · rw [h.2.2]; rfl

/-! ## Target instance materializer: skipping invalid facts (C8)

`src/arelle/inline/__init__.py` lines 184-252, `createTargetInstance`'s
nested `createFacts` and the skipped-facts warning. -/

/-- Modelled from the spec: the numeric validity scale imported as
`from arelle.XmlValidate import VALID, NONE` is not under src.  The source's
own comparisons (`fact.xValid < VALID and skipInvalid`, then
`if fact.xValid < NONE: # don't report Redacted facts`) require NONE < VALID;
the values follow arelle's scale UNVALIDATED=0, UNKNOWN=1, INVALID=2, NONE=3,
VALID=4. -/
def xvNONE : Nat := 3

/-- Modelled from the spec: see `xvNONE`. -/
def xvVALID : Nat := 4

/-- A fact of the resolved target as seen by `createFacts`: its validity
status, whether the chosen deduplication policy marked it a duplicate
(membership in `duplicateFacts`), an identifying token, and, for tuples,
`modelTupleFacts`. -/
inductive MFact where
  | item (xValid : Nat) (isDup : Bool) (token : Nat)
  | tuple (xValid : Nat) (isDup : Bool) (token : Nat) (children : List MFact)
  deriving Repr

def MFact.xValid : MFact → Nat
  | .item v _ _ => v
  | .tuple v _ _ _ => v

def MFact.isDup : MFact → Bool
  | .item _ d _ => d
  | .tuple _ d _ _ => d

def MFact.token : MFact → Nat
  | .item _ _ t => t
  | .tuple _ _ t _ => t

/-- A fact element written into the extracted target instance. -/
inductive EmitFact where
  | item (token : Nat)
  | tuple (token : Nat) (children : List EmitFact)
  deriving Repr

/-- inline/__init__.py lines 191-246, `createFacts`: walk the facts in order;
a deduplicated fact is logged and dropped; with `skipInvalid`, a fact with
`xValid < VALID` is dropped, and appended to `invalidFacts` only when
`xValid < NONE` (Redacted facts are dropped without being recorded); an item
is emitted; a tuple is emitted and its `modelTupleFacts` are walked under it.
Returns (emitted facts, invalidFacts tokens, deduplication-logged tokens). -/
def createFacts (skipInvalid : Bool) : List MFact → List EmitFact × List Nat × List Nat
  | [] => ([], [], [])
  | f :: rest =>
    let hd : List EmitFact × List Nat × List Nat :=
      if f.isDup then ([], [], [f.token])
      else if f.xValid < xvVALID && skipInvalid then
        if f.xValid < xvNONE then ([], [f.token], []) else ([], [], [])
      else
        match f with
        | .item _ _ tok => ([EmitFact.item tok], [], [])
        | .tuple _ _ tok cs =>
          let inner := createFacts skipInvalid cs
          ([EmitFact.tuple tok inner.1], inner.2.1, inner.2.2)
    let r := createFacts skipInvalid rest
    (hd.1 ++ r.1, hd.2.1 ++ r.2.1, hd.2.2 ++ r.2.2)

/-- inline/__init__.py lines 248-252: after all facts are created, one
`arelle.invalidFactsSkipped` warning carrying `len(invalidFacts)` is issued
iff `invalidFacts` is non-empty. -/
def invalidFactsWarning (skipInvalid : Bool) (facts : List MFact) : Option Nat :=
  let inv := (createFacts skipInvalid facts).2.1
  if inv.isEmpty then none else some inv.length

/-- C8 counterexample: a single fact with validity NONE (a Redacted fact),
with the invalid-fact skip flag set.  The fact is excluded from the output
(it IS emitted when the flag is off), yet it is not counted and no warning is
issued — an invalid fact omitted silently, contradicting the claim. -/
theorem skipInvalid_counterexample :
    (createFacts true [MFact.item 3 false 0]).1 = [] ∧
    (createFacts true [MFact.item 3 false 0]).2.1 = [] ∧
    invalidFactsWarning true [MFact.item 3 false 0] = none ∧
    (createFacts false [MFact.item 3 false 0]).1 = [EmitFact.item 0] := by
  refine ⟨?_, ?_, ?_, ?_⟩ <;>
    simp [createFacts, invalidFactsWarning, MFact.isDup, MFact.xValid, MFact.token,
      xvNONE, xvVALID]

/-- C8 (amended): with the invalid-fact skip flag set, a non-duplicate fact
with `xValid < NONE` is excluded from the output and appended to the counted
invalid-fact list, whereas a non-duplicate fact with `NONE ≤ xValid < VALID`
(Redacted) is excluded silently, contributing nothing to any output; the
warning is issued, carrying the count, exactly when the counted list is
non-empty. -/
theorem skipInvalid_amended (f : MFact) (rest facts : List MFact)
    (hdup : f.isDup = false) (hinv : f.xValid < xvVALID) :
    (f.xValid < xvNONE →
      createFacts true (f :: rest) =
        ((createFacts true rest).1, f.token :: (createFacts true rest).2.1,
          (createFacts true rest).2.2)) ∧
    (¬ f.xValid < xvNONE →
      createFacts true (f :: rest) = createFacts true rest) ∧
    ((createFacts true facts).2.1 = [] → invalidFactsWarning true facts = none) ∧
    ((createFacts true facts).2.1 ≠ [] →
      invalidFactsWarning true facts = some (createFacts true facts).2.1.length) := by
  refine ⟨?_, ?_, ?_, ?_⟩
  · intro hlt
    cases f with
    | item v d tok =>
      simp only [MFact.isDup] at hdup
      simp only [MFact.xValid] at hinv hlt
      simp [createFacts, MFact.isDup, MFact.xValid, MFact.token, hdup, hinv, hlt]
    | tuple v d tok cs =>
      simp only [MFact.isDup] at hdup
      simp only [MFact.xValid] at hinv hlt
      simp [createFacts, MFact.isDup, MFact.xValid, MFact.token, hdup, hinv, hlt]
  · intro hge
    cases f with
    | item v d tok =>
      simp only [MFact.isDup] at hdup
      simp only [MFact.xValid] at hinv hge
      simp [createFacts, MFact.isDup, MFact.xValid, MFact.token, hdup, hinv, hge]
    | tuple v d tok cs =>
      simp only [MFact.isDup] at hdup
      simp only [MFact.xValid] at hinv hge
      simp [createFacts, MFact.isDup, MFact.xValid, MFact.token, hdup, hinv, hge]
  · intro hnil
    simp [invalidFactsWarning, hnil]
  · intro hne
    simp [invalidFactsWarning, List.isEmpty_iff, hne]

/-- C8 witness: the amended theorem at a concrete INVALID fact (xValid=2),
which is both excluded and counted, with the warning carrying count 1. -/
theorem skipInvalid_amended_witness :
    (MFact.item 2 false 0).isDup = false ∧
    (MFact.item 2 false 0).xValid < xvVALID ∧
    createFacts true [MFact.item 2 false 0] = ([], [0], []) ∧
    invalidFactsWarning true [MFact.item 2 false 0] = some 1 := by
  have h := skipInvalid_amended (MFact.item 2 false 0) [] [MFact.item 2 false 0]
    rfl (by decide)
  have h1 := h.1 (by decide)
  have hfacts : createFacts true [MFact.item 2 false 0] = ([], [0], []) := by
    rw [h1]
    simp [createFacts, MFact.token]
  refine ⟨rfl, by decide, hfacts, ?_⟩
  have hne : (createFacts true [MFact.item 2 false 0]).2.1 ≠ [] := by
    rw [hfacts]
    simp
  have h2 := h.2.2.2 hne
  rw [hfacts] at h2
  simpa using h2

/-! ## Tuple assembler: ordering and same-order deduplication (C4)

`src/arelle/inline/ixds/IxdsLoader.py` lines 609-626: the "order tuple
facts" loop over a tuple's `unorderedTupleFacts` (a dict from numeric order
values to the member lists accumulated by `locateFactInTuple`). -/

/-- Modelled from the spec: `PythonUtil.normalizeSpace` is not under src; the
spec calls for whitespace-normalized comparison.  This is Python
`" ".join(s.split())`: trim, and collapse every whitespace run to one
space.  `started` records whether a word has been emitted; `pend` whether a
separating space is owed. -/
def normSpaceGo (started pend : Bool) : List Char → List Char
  | [] => []
  | c :: cs =>
    if c.isWhitespace then
      normSpaceGo started true cs
    else if started && pend then
      ' ' :: c :: normSpaceGo true false cs
    else
      c :: normSpaceGo true false cs

/-- Whitespace normalization of a string (see `normSpaceGo`). -/
def normalizeSpace (s : String) : String := String.mk (normSpaceGo false false s.data)

/-- `normalizeSpace` lifted over Python's None (absent attribute). -/
def normalizeSpaceO : Option String → Option String := Option.map normalizeSpace

/-- A tuple member as compared by the duplicate-order check: an identifying
token, its (whitespace-raw) text value, and its attribute map. -/
structure OFact where
  token : Nat
  value : String
  attrs : List (String × String)
  deriving Repr, DecidableEq

/-- IxdsLoader lines 614-617: all members of a duplicate-order group equal the
FIRST member in whitespace-normalized value and in every non-order attribute
carried by the first member (`for attr in facts[0].keys() if attr != "order"`,
values read with `.get`, so an attribute present only on a later member is
never compared). -/
def sameOrderGroupEqual : List OFact → Bool
  | [] => true
  | f0 :: rest =>
    rest.all (fun f =>
      (normalizeSpace f0.value == normalizeSpace f.value) &&
      f0.attrs.all (fun kv =>
        kv.1 == "order" ||
        (normalizeSpaceO (alookup f0.attrs kv.1) == normalizeSpaceO (alookup f.attrs kv.1))))

/-- IxdsLoader lines 611-621: one `tupleSameOrderMembersUnequal` error per
duplicate-order group that fails the equality check, carrying the order key
and the member tokens. -/
def tupleSameOrderErrors (groups : List (Int × List OFact)) : List (Int × List Nat) :=
  groups.filterMap (fun g =>
    if 1 < g.2.length && !sameOrderGroupEqual g.2 then
      some (g.1, g.2.map (fun f => f.token))
    else none)

/-- IxdsLoader lines 624-626: `modelTupleFacts` keeps `facts[0]` of every
non-empty group, in ascending numeric-order key (Python
`sorted(items, key=lambda i:i[0])`). -/
def modelTupleFacts (groups : List (Int × List OFact)) : List Nat :=
  (insertionSortB (fun a b => decide (a.1 ≤ b.1)) groups).filterMap
    (fun g => (g.2.head?).map (fun f => f.token))

/-- C4 counterexample: two members share order 1 and are whitespace-normalized
equal in text value ("v") and in the first member's only non-order attribute,
but the second member carries an extra attribute "extra"="z" that the first
lacks — so the group members disagree in a non-order attribute, yet NO
same-order-mismatch error is emitted (the check iterates only the first
member's attribute keys), and only the first member is kept. -/
theorem tupleSameOrder_counterexample :
    tupleSameOrderErrors
        [((1 : Int), [OFact.mk 0 "v" [("order", "1")],
                      OFact.mk 1 "v" [("order", "1"), ("extra", "z")]])] = [] ∧
    alookup (OFact.mk 0 "v" [("order", "1")]).attrs "extra" ≠
      alookup (OFact.mk 1 "v" [("order", "1"), ("extra", "z")]).attrs "extra" ∧
    modelTupleFacts
        [((1 : Int), [OFact.mk 0 "v" [("order", "1")],
                      OFact.mk 1 "v" [("order", "1"), ("extra", "z")]])] = [0] := by
  refine ⟨?_, by decide, ?_⟩ <;> rfl

/-- C4 (amended): for every duplicate-order group, only the FIRST member (in
all cases, error or not) appears in the tuple's final ordered child list; and
a same-order-mismatch error for the group is emitted iff the group has more
than one member and some later member differs from the FIRST member in
whitespace-normalized text value or in a non-order attribute carried by the
first member (attributes present only on later members are not compared). -/
theorem tupleSameOrder_amended (groups : List (Int × List OFact))
    (horders : (groups.map (fun g => g.1)).Nodup)
    (htokens : (groups.flatMap (fun g => g.2.map (fun f => f.token))).Nodup)
    (o : Int) (f0 : OFact) (frest : List OFact)
    (hg : (o, f0 :: frest) ∈ groups) :
    (f0.token ∈ modelTupleFacts groups) ∧
    (∀ f ∈ frest, f.token ∉ modelTupleFacts groups) ∧
    ((o, (f0 :: frest).map (fun f => f.token)) ∈ tupleSameOrderErrors groups ↔
      (frest ≠ [] ∧ ∃ f ∈ frest,
        normalizeSpace f0.value ≠ normalizeSpace f.value ∨
        ∃ kv ∈ f0.attrs, kv.1 ≠ "order" ∧
          normalizeSpaceO (alookup f0.attrs kv.1) ≠
            normalizeSpaceO (alookup f.attrs kv.1))) := by
  obtain ⟨l1, l2, hsplit⟩ := List.append_of_mem hg
  refine ⟨?_, ?_, ?_⟩
  · apply List.mem_filterMap.mpr
    refine ⟨(o, f0 :: frest), ?_, rfl⟩
    exact mem_insertionSortB.mpr hg
  · intro f hf hmem
    obtain ⟨g', hg', hfn⟩ := List.mem_filterMap.mp hmem
    rw [mem_insertionSortB] at hg'
    obtain ⟨h0, htl, hh0⟩ : ∃ h0 htl, g'.2 = h0 :: htl ∧ h0.token = f.token := by
      cases hgs : g'.2 with
      | nil => rw [hgs] at hfn; simp at hfn
      | cons h0 htl =>
        rw [hgs] at hfn
        simp only [List.head?_cons, Option.map_some'] at hfn
        exact ⟨h0, htl, rfl, by injection hfn⟩
    obtain ⟨hgs, hh0tok⟩ := hh0
    rw [hsplit] at htokens hg'
    have hft_mid : f.token ∈ ((o, f0 :: frest).2.map (fun f => f.token)) := by
      simp only [List.map_cons, List.mem_cons]
      right
      exact List.mem_map_of_mem _ hf
    have hflat : (l1.flatMap (fun g => g.2.map (fun f => f.token)) ++
        (((o, f0 :: frest).2.map (fun f => f.token)) ++
          l2.flatMap (fun g => g.2.map (fun f => f.token)))).Nodup := by
      simpa using htokens
    rcases List.mem_append.mp hg' with h1 | h2
    · -- g' in l1: its tokens are disjoint from the mid group's tokens
      have hdisj := (List.nodup_append.mp hflat).2.2
      have hft_g' : f.token ∈ l1.flatMap (fun g => g.2.map (fun f => f.token)) := by
        apply List.mem_flatMap.mpr
        refine ⟨g', h1, ?_⟩
        rw [hgs, ← hh0tok]
        simp
      exact hdisj hft_g' (List.mem_append.mpr (Or.inl hft_mid))
    · rcases List.mem_cons.mp h2 with heq | h3
      · -- g' is the mid group: f0.token duplicated inside it
        have hmidnd : ((o, f0 :: frest).2.map (fun f => f.token)).Nodup :=
          ((List.nodup_append.mp (List.nodup_append.mp hflat).2.1).1)
        rw [heq] at hgs
        have hgs' : f0 :: frest = h0 :: htl := hgs
        have hf0 : h0 = f0 := by
          injection hgs' with h1 h2
          exact h1.symm
        rw [hf0] at hh0tok
        simp only [List.map_cons, List.nodup_cons] at hmidnd
        exact hmidnd.1 (hh0tok ▸ List.mem_map_of_mem _ hf)
      · have hnd2 := List.nodup_append.mp (List.nodup_append.mp hflat).2.1
        have hdisj := hnd2.2.2
        have hft_g' : f.token ∈ l2.flatMap (fun g => g.2.map (fun f => f.token)) := by
          apply List.mem_flatMap.mpr
          refine ⟨g', h3, ?_⟩
          rw [hgs, ← hh0tok]
          simp
        exact hdisj hft_mid hft_g'
  · constructor
    · intro hmem
      obtain ⟨g', hg', hfn⟩ := List.mem_filterMap.mp hmem
      have hcond : (1 < g'.2.length && !sameOrderGroupEqual g'.2) = true := by
        by_contra hc
        rw [if_neg hc] at hfn
        exact Option.noConfusion hfn
      rw [if_pos hcond] at hfn
      have hpair := Option.some.inj hfn
      have hkey : g'.1 = o := (Prod.ext_iff.mp hpair).1
      -- keys are nodup, so g' is the group (o, f0 :: frest)
      have hgeq : g' = (o, f0 :: frest) := by
        rw [hsplit] at horders hg'
        simp only [List.map_append, List.map_cons] at horders
        have h1 := List.nodup_append.mp horders
        rcases List.mem_append.mp hg' with ha | hb
        · exfalso
          have : o ∈ l1.map (fun g => g.1) := hkey ▸ List.mem_map_of_mem _ ha
          exact h1.2.2 this (List.mem_cons_self _ _)
        · rcases List.mem_cons.mp hb with heq | hc
          · exact heq
          · exfalso
            have h2 := h1.2.1
            simp only [List.nodup_cons] at h2
            exact h2.1 (hkey ▸ List.mem_map_of_mem _ hc)
      rw [hgeq] at hcond
      have hlen := (Bool.and_eq_true_iff.mp hcond).1
      have hneq := (Bool.and_eq_true_iff.mp hcond).2
      constructor
      · intro hnil
        rw [hnil] at hlen
        simp at hlen
      · have : ¬ sameOrderGroupEqual ((o, f0 :: frest).2) = true := by
          simpa using hneq
        simp only [sameOrderGroupEqual, List.all_eq_true, not_forall] at this
        obtain ⟨f, hf, hfail⟩ := this
        refine ⟨f, hf, ?_⟩
        rw [Bool.and_eq_true_iff] at hfail
        push_neg at hfail
        by_cases hval : normalizeSpace f0.value = normalizeSpace f.value
        · right
          have hattr := hfail (by simpa using hval)
          have : ¬ (f0.attrs.all (fun kv =>
              kv.1 == "order" ||
              (normalizeSpaceO (alookup f0.attrs kv.1) ==
                normalizeSpaceO (alookup f.attrs kv.1)))) = true := hattr
          simp only [List.all_eq_true, not_forall] at this
          obtain ⟨kv, hkv, hkvfail⟩ := this
          refine ⟨kv, hkv, ?_⟩
          rw [Bool.or_eq_true_iff] at hkvfail
          push_neg at hkvfail
          constructor
          · simpa using hkvfail.1
          · simpa using hkvfail.2
        · exact Or.inl hval
    · rintro ⟨hne, f, hf, hdiff⟩
      apply List.mem_filterMap.mpr
      refine ⟨(o, f0 :: frest), hg, ?_⟩
      have hcond : (1 < (f0 :: frest).length && !sameOrderGroupEqual (f0 :: frest)) = true := by
        rw [Bool.and_eq_true_iff]
        constructor
        · cases frest with
          | nil => exact absurd rfl hne
          | cons x xs => simp
        · rw [Bool.not_eq_true']
          rw [Bool.eq_false_iff]
          intro hall
          simp only [sameOrderGroupEqual, List.all_eq_true] at hall
          have := hall f hf
          rw [Bool.and_eq_true_iff] at this
          rcases hdiff with hval | ⟨kv, hkv, hko, hkd⟩
          · exact hval (by simpa using this.1)
          · have h2 := this.2
            simp only [List.all_eq_true] at h2
            have := h2 kv hkv
            rw [Bool.or_eq_true_iff] at this
            rcases this with h3 | h3
            · exact hko (by simpa using h3)
            · exact hkd (by simpa using h3)
      rw [if_pos hcond]

/-- C4 witness: the amended theorem at a concrete two-group tuple whose order-2
group has genuinely unequal members (different values), checking that the
first member of each group is kept and the error fires for the bad group. -/
theorem tupleSameOrder_amended_witness :
    ((2 : Int), [(10 : Nat), 11]) ∈ tupleSameOrderErrors
        [((2 : Int), [OFact.mk 10 "a" [], OFact.mk 11 "b" []]),
         ((1 : Int), [OFact.mk 12 "c" []])] ∧
    (10 : Nat) ∈ modelTupleFacts
        [((2 : Int), [OFact.mk 10 "a" [], OFact.mk 11 "b" []]),
         ((1 : Int), [OFact.mk 12 "c" []])] ∧
    (11 : Nat) ∉ modelTupleFacts
        [((2 : Int), [OFact.mk 10 "a" [], OFact.mk 11 "b" []]),
         ((1 : Int), [OFact.mk 12 "c" []])] := by
  have h := tupleSameOrder_amended
    [((2 : Int), [OFact.mk 10 "a" [], OFact.mk 11 "b" []]),
     ((1 : Int), [OFact.mk 12 "c" []])]
    (by decide) (by decide) 2 (OFact.mk 10 "a" []) [OFact.mk 11 "b" []]
    (by decide)
  refine ⟨?_, h.1, h.2.1 (OFact.mk 11 "b" []) (by decide)⟩
  apply h.2.2.mpr
  refine ⟨by decide, OFact.mk 11 "b" [], by decide, Or.inl (by decide)⟩

/-! ## Target instance materializer: emission order (C9)

`src/arelle/inline/__init__.py` lines 161-298, `createTargetInstance`: the
order in which children are appended to the new instance's root — roleRefs
and arcroleRefs (lines 161-164), then contexts (167-177), then units
(178-180), then facts (`createFacts(modelXbrl.facts, None)`, line 247), then
footnote/relationship links for each link role in sorted order
(lines 265-279). -/

/-- A child element appended to the root of the materialized instance. -/
inductive Emitted where
  | roleRef (r : String)
  | context (id : String)
  | unitElt (id : String)
  | fact (f : EmitFact)
  | link (role : String) (token : Nat)
  deriving Repr

def Emitted.isCtxOrUnit : Emitted → Bool
  | .context _ => true
  | .unitElt _ => true
  | _ => false

def Emitted.isFactElt : Emitted → Bool
  | .fact _ => true
  | _ => false

def Emitted.isLink : Emitted → Bool
  | .link _ _ => true
  | _ => false

def Emitted.linkRole : Emitted → Option String
  | .link r _ => some r
  | _ => none

/-- The inputs of `createTargetInstance` that determine the emission order:
the roleRef/arcroleRef elements, the contexts (in objectIndex order), the
units, the root-level facts, the invalid-skip flag, and `footnoteLinks`
(a dict from link role to the link prototypes collected for that role). -/
structure MatCfg where
  roleRefs : List String
  contexts : List String
  units : List String
  facts : List MFact
  skipInvalid : Bool
  footnoteLinks : List (String × List Nat)

/-- createTargetInstance lines 161-180: roleRefs, then contexts, then units. -/
def emitPre (cfg : MatCfg) : List Emitted :=
  cfg.roleRefs.map Emitted.roleRef ++ cfg.contexts.map Emitted.context ++
    cfg.units.map Emitted.unitElt

/-- createTargetInstance line 247: the root-level facts, via `createFacts`. -/
def emitFactsSeg (cfg : MatCfg) : List Emitted :=
  (createFacts cfg.skipInvalid cfg.facts).1.map Emitted.fact

/-- createTargetInstance lines 265-279: `for linkrole in sorted(
footnoteLinks.keys()): for linkPrototype in footnoteLinks[linkrole]: ...`. -/
def emitLinksSeg (cfg : MatCfg) : List Emitted :=
  (insertionSortB strLe (cfg.footnoteLinks.map (fun p => p.1))).flatMap
    (fun r => ((alookup cfg.footnoteLinks r).getD []).map (fun tok => Emitted.link r tok))

/-- The root children of the materialized instance, in document order. -/
def emitInstance (cfg : MatCfg) : List Emitted :=
  emitPre cfg ++ emitFactsSeg cfg ++ emitLinksSeg cfg

theorem mem_emitPre {cfg : MatCfg} {x : Emitted} (hx : x ∈ emitPre cfg) :
    x.isFactElt = false ∧ x.isLink = false := by
  simp only [emitPre, List.mem_append, List.mem_map] at hx
  rcases hx with (⟨r, _, rfl⟩ | ⟨c, _, rfl⟩) | ⟨u, _, rfl⟩ <;>
    exact ⟨rfl, rfl⟩

theorem mem_emitFactsSeg {cfg : MatCfg} {x : Emitted} (hx : x ∈ emitFactsSeg cfg) :
    x.isFactElt = true ∧ x.isLink = false ∧ x.isCtxOrUnit = false := by
  simp only [emitFactsSeg, List.mem_map] at hx
  obtain ⟨f, _, rfl⟩ := hx
  exact ⟨rfl, rfl, rfl⟩

theorem mem_emitLinksSeg {cfg : MatCfg} {x : Emitted} (hx : x ∈ emitLinksSeg cfg) :
    x.isLink = true ∧ x.isFactElt = false ∧ x.isCtxOrUnit = false := by
  simp only [emitLinksSeg, List.mem_flatMap, List.mem_map] at hx
  obtain ⟨r, _, tok, _, rfl⟩ := hx
  exact ⟨rfl, rfl, rfl⟩

theorem index_lt_of_second_false (P : Emitted → Bool) (l1 l2 : List Emitted)
    (h2 : ∀ x ∈ l2, P x = false) (i : Nat) (x : Emitted)
    (hx : (l1 ++ l2)[i]? = some x) (hP : P x = true) : i < l1.length := by
  by_contra h
  push_neg at h
  rw [List.getElem?_append_right h] at hx
  have hmem : x ∈ l2 := List.getElem?_mem hx
  rw [h2 x hmem] at hP
  exact Bool.noConfusion hP

theorem index_ge_of_first_false (P : Emitted → Bool) (l1 l2 : List Emitted)
    (h1 : ∀ x ∈ l1, P x = false) (i : Nat) (x : Emitted)
    (hx : (l1 ++ l2)[i]? = some x) (hP : P x = true) : l1.length ≤ i := by
  by_contra h
  push_neg at h
  rw [List.getElem?_append_left h] at hx
  have hmem : x ∈ l1 := List.getElem?_mem hx
  rw [h1 x hmem] at hP
  exact Bool.noConfusion hP

theorem filterMap_const_of_some {α β : Type} (g : α → Option β) (k : β) :
    ∀ (l : List α), (∀ x ∈ l, g x = some k) → l.filterMap g = l.map (fun _ => k) := by
  intro l
  induction l with
  | nil => intro _; rfl
  | cons a as ih =>
    intro h
    rw [List.filterMap_cons, h a (List.mem_cons_self _ _), List.map_cons,
      ih (fun x hx => h x (List.mem_cons_of_mem _ hx))]

theorem pairwise_map_const {α : Type} (l : List α) (s : String) :
    (l.map (fun _ => s)).Pairwise (fun a b => strLe a b = true) := by
  induction l with
  | nil => simp
  | cons a as ih =>
    simp only [List.map_cons, List.pairwise_cons]
    constructor
    · intro b hb
      rcases List.mem_map.mp hb with ⟨_, _, rfl⟩
      exact strLe_refl s
    · exact ih

theorem sorted_links_filterMap (keys : List String)
    (f : String → List Emitted)
    (hf : ∀ r, ∀ x ∈ f r, Emitted.linkRole x = some r)
    (hs : keys.Pairwise (fun a b => strLe a b = true)) :
    ((keys.flatMap f).filterMap Emitted.linkRole).Pairwise
      (fun a b => strLe a b = true) := by
  induction keys with
  | nil => simp
  | cons k ks ih =>
    rcases hs with _ | ⟨hk, hks⟩
    rw [List.flatMap_cons, List.filterMap_append]
    rw [filterMap_const_of_some Emitted.linkRole k (f k) (hf k)]
    apply List.pairwise_append.mpr
    refine ⟨pairwise_map_const (f k) k, ih hks, ?_⟩
    intro a ha b hb
    rcases List.mem_map.mp ha with ⟨_, _, rfl⟩
    obtain ⟨x, hx, hxr⟩ := List.mem_filterMap.mp hb
    obtain ⟨r, hr, hxf⟩ := List.mem_flatMap.mp hx
    rw [hf r x hxf] at hxr
    injection hxr with hb'
    rw [← hb']
    exact hk r hr

/-- C9: in every materialized target instance, every copied context and unit
element appears before every fact element, every footnote/relationship link
container appears after every fact element, and the link containers are
emitted in ascending link-role order (code-point order of Python `sorted`). -/
theorem emitInstance_ordering (cfg : MatCfg) :
    (∀ (i j : Nat) (x y : Emitted), (emitInstance cfg)[i]? = some x →
      x.isCtxOrUnit = true →
      (emitInstance cfg)[j]? = some y → y.isFactElt = true → i < j) ∧
    (∀ (i j : Nat) (x y : Emitted), (emitInstance cfg)[i]? = some x →
      x.isFactElt = true →
      (emitInstance cfg)[j]? = some y → y.isLink = true → i < j) ∧
    ((emitInstance cfg).filterMap Emitted.linkRole).Pairwise
      (fun a b => strLe a b = true) := by
  have hassoc : emitInstance cfg =
      emitPre cfg ++ (emitFactsSeg cfg ++ emitLinksSeg cfg) := by
    simp [emitInstance, List.append_assoc]
  refine ⟨?_, ?_, ?_⟩
  · intro i j x y hix hxP hjy hyP
    rw [hassoc] at hix hjy
    have hi : i < (emitPre cfg).length := by
      apply index_lt_of_second_false Emitted.isCtxOrUnit _ _ _ i x hix hxP
      intro z hz
      rcases List.mem_append.mp hz with hz1 | hz2
      · exact (mem_emitFactsSeg hz1).2.2
      · exact (mem_emitLinksSeg hz2).2.2
    have hj : (emitPre cfg).length ≤ j := by
      apply index_ge_of_first_false Emitted.isFactElt _ _ _ j y hjy hyP
      intro z hz
      exact (mem_emitPre hz).1
    omega
  · intro i j x y hix hxP hjy hyP
    have hassoc2 : emitInstance cfg =
        (emitPre cfg ++ emitFactsSeg cfg) ++ emitLinksSeg cfg := by
      simp [emitInstance]
    rw [hassoc2] at hix hjy
    have hi : i < (emitPre cfg ++ emitFactsSeg cfg).length := by
      apply index_lt_of_second_false Emitted.isFactElt _ _ _ i x hix hxP
      intro z hz
      exact (mem_emitLinksSeg hz).2.1
    have hj : (emitPre cfg ++ emitFactsSeg cfg).length ≤ j := by
      apply index_ge_of_first_false Emitted.isLink _ _ _ j y hjy hyP
      intro z hz
      rcases List.mem_append.mp hz with hz1 | hz2
      · exact (mem_emitPre hz1).2
      · exact (mem_emitFactsSeg hz2).2.1
    omega
  · have h1 : (emitPre cfg).filterMap Emitted.linkRole = [] := by
      rw [List.filterMap_eq_nil_iff]
      intro x hx
      simp only [emitPre, List.mem_append, List.mem_map] at hx
      rcases hx with (⟨r, _, rfl⟩ | ⟨c, _, rfl⟩) | ⟨u, _, rfl⟩ <;> rfl
    have h2 : (emitFactsSeg cfg).filterMap Emitted.linkRole = [] := by
      rw [List.filterMap_eq_nil_iff]
      intro x hx
      simp only [emitFactsSeg, List.mem_map] at hx
      obtain ⟨f, _, rfl⟩ := hx
      rfl
    rw [emitInstance, List.filterMap_append, List.filterMap_append, h1, h2]
    simp only [List.nil_append]
    apply sorted_links_filterMap
    · intro r x hx
      rcases List.mem_map.mp hx with ⟨tok, _, rfl⟩
      rfl
    · exact pairwise_insertionSortB strLe_total strLe_trans _

/-- The concrete instance used by the C9 witness: one context, one unit, one
valid fact and one footnote link. -/
def emitWitnessCfg : MatCfg :=
  MatCfg.mk [] ["c1"] ["u1"] [MFact.item 4 false 0] false [("r", [5])]

/-- C9 witness: the ordering theorem applied at concrete indexes of the
concrete instance (context at 0 before fact at 2; fact at 2 before link
at 3). -/
theorem emitInstance_ordering_witness :
    (emitInstance emitWitnessCfg)[0]? = some (Emitted.context "c1") ∧
    (emitInstance emitWitnessCfg)[2]? = some (Emitted.fact (EmitFact.item 0)) ∧
    (emitInstance emitWitnessCfg)[3]? = some (Emitted.link "r" 5) ∧
    (0 : Nat) < 2 ∧ (2 : Nat) < 3 := by
  have hemit : emitInstance emitWitnessCfg =
      [Emitted.context "c1", Emitted.unitElt "u1",
       Emitted.fact (EmitFact.item 0), Emitted.link "r" 5] := by
    simp [emitInstance, emitPre, emitFactsSeg, emitLinksSeg, emitWitnessCfg,
      createFacts, MFact.isDup, MFact.xValid, xvNONE, xvVALID,
      insertionSortB, orderedInsertB, alookup]
  have h := emitInstance_ordering emitWitnessCfg
  refine ⟨by rw [hemit]; rfl, by rw [hemit]; rfl, by rw [hemit]; rfl, ?_, ?_⟩
  · exact h.1 0 2 (Emitted.context "c1") (Emitted.fact (EmitFact.item 0))
      (by rw [hemit]; rfl) rfl (by rw [hemit]; rfl) rfl
  · exact h.2.1 2 3 (Emitted.fact (EmitFact.item 0)) (Emitted.link "r" 5)
      (by rw [hemit]; rfl) rfl (by rw [hemit]; rfl) rfl

/-! ## Relationship graph builder (C1)

`src/arelle/inline/ixds/IxdsLoader.py` lines 739-825: the loop over
`ix:relationship` elements that synthesizes locators, footnote resources and
arcs into the link prototype of the relationship's link role. -/

/-- A fact as looked up through `factsByFactID` by the relationship loop:
its `target` attribute and its qname (used in the mixed-references error). -/
structure RelFact where
  target : Option String
  qname : String
  deriving Repr, DecidableEq

/-- A child synthesized into the link prototype (`childElements`). -/
inductive RelChild where
  | loc (label : String)
  | footnote (label : String)
  | arc (fromLabel toLabel : String)
  deriving Repr, DecidableEq

/-- The error findings of the relationship loop (lines 807-825). -/
inductive RelErr where
  | relationshipToRef (toIds : List String)
  | relationshipFromToMatch (ids : List String)
  | relationshipReferencesMixed (footnoteIds factQnames : List String)
  deriving Repr, DecidableEq

/-- An `ix:relationship` element: its whitespace-split `fromRefs` and
`toRefs` id lists. -/
structure InlineRel where
  fromRefs : List String
  toRefs : List String
  deriving Repr, DecidableEq

/-- IxdsLoader lines 786-791: rewrite the `target` attribute of the fact with
id `k` to the active target. -/
def setFactTarget (m : List (String × RelFact)) (k : String) (t : Option String) :
    List (String × RelFact) :=
  m.map (fun p => if p.1 = k then (p.1, RelFact.mk t p.2.qname) else p)

/-- The mutable state of the `for toId in toRefs` loop (lines 766-804). -/
structure ToLoopState where
  factsByFactID : List (String × RelFact)
  toLabels : List String
  toFootnoteIds : List String
  toFactQnames : List String
  fromToMatchedIds : List String
  toIdsNotFound : List String
  linkLocIds : List String
  linkFootnoteIds : List String
  children : List RelChild
  relHasToObjectsInTarget : Bool
  deriving Repr, DecidableEq

/-- IxdsLoader lines 771-804: one iteration of the `toRefs` loop.  A toId that
is a footnote id joins `toLabels`/`toFootnoteIds` and (when the relationship
has a source fact in the target and the footnote is new to the link role) is
appended as a resource; a toId that is a fact id joins `toLabels` and, when
new to the link role's locators, is (if needed) pulled into the active target
by rewriting its `target` attribute, then gets a locator when its target now
matches; an unresolved toId joins `toIdsNotFound`.  Finally, a toId also
present in `fromLabels` joins `fromToMatchedIds` — with no effect on any of
the synthesis just performed. -/
def processToRefCore (ixdsTarget : Option String) (footnotesById : List String)
    (relHasFromFactsInTarget : Bool)
    (st : ToLoopState) (toId : String) : ToLoopState :=
  if toId ∈ footnotesById then
      let st' := { st with toLabels := addToSet st.toLabels toId,
                           toFootnoteIds := addToSet st.toFootnoteIds toId }
      if relHasFromFactsInTarget ∧ ¬ toId ∈ st.linkFootnoteIds then
        { st' with children := st'.children ++ [RelChild.footnote toId],
                   linkFootnoteIds := st'.linkFootnoteIds ++ [toId],
                   relHasToObjectsInTarget := true }
      else st'
    else
      match alookup st.factsByFactID toId with
      | some f0 =>
        let st' := { st with toLabels := addToSet st.toLabels toId }
        if toId ∈ st'.linkLocIds then st'
        else
          let rewriteTarget := relHasFromFactsInTarget ∧ ¬ f0.target = ixdsTarget
          let st2 := if rewriteTarget then
              { st' with factsByFactID := setFactTarget st'.factsByFactID toId ixdsTarget }
            else st'
          let tgt := if rewriteTarget then ixdsTarget else f0.target
          if tgt = ixdsTarget then
            { st2 with linkLocIds := st2.linkLocIds ++ [toId],
                       toFactQnames := addToSet st2.toFactQnames f0.qname,
                       children := st2.children ++ [RelChild.loc toId],
                       relHasToObjectsInTarget := true }
          else st2
      | none => { st with toIdsNotFound := st.toIdsNotFound ++ [toId] }

/-- IxdsLoader lines 803-804: after the branch above, a toId also present in
`fromLabels` joins `fromToMatchedIds`. -/
def processToRef (ixdsTarget : Option String) (footnotesById : List String)
    (fromLabels : List String) (relHasFromFactsInTarget : Bool)
    (st : ToLoopState) (toId : String) : ToLoopState :=
  let st1 := processToRefCore ixdsTarget footnotesById relHasFromFactsInTarget st toId
  if toId ∈ fromLabels then
    { st1 with fromToMatchedIds := addToSet st1.fromToMatchedIds toId }
  else st1

/-- State carried per link role across relationships
(`linkModelLocIds[linkrole]`, `linkModelInlineFootnoteIds[linkrole]`). -/
structure RelState where
  linkLocIds : List String
  linkFootnoteIds : List String
  deriving Repr, DecidableEq

/-- The observable outcome of processing one relationship element. -/
structure RelOutput where
  children : List RelChild
  errors : List RelErr
  factsByFactID : List (String × RelFact)
  linkLocIds : List String
  linkFootnoteIds : List String
  targetRelationship : Bool
  deriving Repr, DecidableEq

/-- IxdsLoader lines 743-746: `fromLabels` collects every fromRef id
(resolved or not) into a set. -/
def relFromLabels (rel : InlineRel) : List String := listToSet rel.fromRefs

/-- IxdsLoader lines 745-748: `relHasFromFactsInTarget` — some fromRef
resolves to a fact whose target is the active target. -/
def relHasFromFacts (ixdsTarget : Option String)
    (factsByFactID : List (String × RelFact)) (rel : InlineRel) : Bool :=
  rel.fromRefs.any (fun i =>
    match alookup factsByFactID i with
    | some f => f.target = ixdsTarget
    | none => false)

/-- IxdsLoader lines 760-765: one locator per resolved fromId that is new to
the link role's locator set, when the relationship has a source fact in the
target; returns the updated `linkModelLocIds[linkrole]` and the appended
children. -/
def relFromStep (ixdsTarget : Option String)
    (factsByFactID : List (String × RelFact)) (rel : InlineRel)
    (st0 : RelState) : List String × List RelChild :=
  (relFromLabels rel).foldl (fun (acc : List String × List RelChild) fromId =>
      if ¬ fromId ∈ acc.1 ∧ relHasFromFacts ixdsTarget factsByFactID rel ∧
          (alookup factsByFactID fromId).isSome then
        (acc.1 ++ [fromId], acc.2 ++ [RelChild.loc fromId])
      else acc) (st0.linkLocIds, [])

/-- The state of the toRefs loop as entered at line 766. -/
def relToLoopInit (ixdsTarget : Option String)
    (factsByFactID : List (String × RelFact)) (rel : InlineRel)
    (st0 : RelState) : ToLoopState :=
  ⟨factsByFactID, [], [], [], [], [],
    (relFromStep ixdsTarget factsByFactID rel st0).1, st0.linkFootnoteIds, [], false⟩

/-- IxdsLoader lines 766-804: the full toRefs loop. -/
def relToLoopFinal (ixdsTarget : Option String)
    (factsByFactID : List (String × RelFact)) (footnotesById : List String)
    (rel : InlineRel) (st0 : RelState) : ToLoopState :=
  rel.toRefs.foldl
    (processToRef ixdsTarget footnotesById (relFromLabels rel)
      (relHasFromFacts ixdsTarget factsByFactID rel))
    (relToLoopInit ixdsTarget factsByFactID rel st0)

/-- IxdsLoader lines 807-814 and 821-825: the errors of one relationship —
unresolved toRefs, fromRefs/toRefs matches, and mixed footnote/fact
references, with sorted id lists. -/
def relArcErrs (stFin : ToLoopState) : List RelErr :=
  (if stFin.toIdsNotFound ≠ [] then
      [RelErr.relationshipToRef (insertionSortB strLe stFin.toIdsNotFound)] else []) ++
  (if stFin.fromToMatchedIds ≠ [] then
      [RelErr.relationshipFromToMatch (insertionSortB strLe stFin.fromToMatchedIds)]
    else []) ++
  (if stFin.toFootnoteIds ≠ [] ∧ stFin.toFactQnames ≠ [] then
      [RelErr.relationshipReferencesMixed (insertionSortB strLe stFin.toFootnoteIds)
        (insertionSortB strLe stFin.toFactQnames)] else [])

/-- IxdsLoader lines 815-820: one arc per (fromLabel, toLabel) pair, appended
REGARDLESS of the error findings reported above. -/
def relArcs (fromLabels toLabels : List String) : List RelChild :=
  fromLabels.flatMap (fun fl => toLabels.map (fun tl => RelChild.arc fl tl))

/-- IxdsLoader lines 742-825: process one `ix:relationship` against the
active target and the per-link-role state. -/
def processRelationship (ixdsTarget : Option String)
    (factsByFactID : List (String × RelFact)) (footnotesById : List String)
    (rel : InlineRel) (st0 : RelState) : RelOutput :=
  let stFin := relToLoopFinal ixdsTarget factsByFactID footnotesById rel st0
  ⟨(relFromStep ixdsTarget factsByFactID rel st0).2 ++ stFin.children ++
      relArcs (relFromLabels rel) stFin.toLabels,
    relArcErrs stFin,
    stFin.factsByFactID, stFin.linkLocIds, stFin.linkFootnoteIds,
    relHasFromFacts ixdsTarget factsByFactID rel && stFin.relHasToObjectsInTarget⟩

theorem mem_addToSet_of_mem {s : List String} {x a : String} (h : a ∈ s) :
    a ∈ addToSet s x := mem_addToSet.mpr (Or.inl h)

theorem mem_addToSet_self {s : List String} {x : String} : x ∈ addToSet s x :=
  mem_addToSet.mpr (Or.inr rfl)

theorem alookup_setFactTarget_ne (m : List (String × RelFact)) (k : String)
    (t : Option String) (i : String) (h : i ≠ k) :
    alookup (setFactTarget m k t) i = alookup m i := by
  induction m with
  | nil => rfl
  | cons p rest ih =>
    simp only [setFactTarget, List.map_cons]
    by_cases hpk : p.1 = k
    · rw [if_pos hpk]
      show alookup ((p.1, RelFact.mk t p.2.qname) :: setFactTarget rest k t) i =
        alookup (p :: rest) i
      simp only [alookup]
      by_cases hpi : p.1 = i
      · exact absurd (by rw [← hpi]; exact hpk) h
      · rw [if_neg hpi, if_neg hpi]
        exact ih
    · rw [if_neg hpk]
      show alookup (p :: setFactTarget rest k t) i = alookup (p :: rest) i
      simp only [alookup]
      by_cases hpi : p.1 = i
      · rw [if_pos hpi, if_pos hpi]
      · rw [if_neg hpi, if_neg hpi]
        exact ih

theorem alookup_setFactTarget_self (m : List (String × RelFact)) (k : String)
    (t : Option String) :
    alookup (setFactTarget m k t) k =
      (alookup m k).map (fun f => RelFact.mk t f.qname) := by
  induction m with
  | nil => rfl
  | cons p rest ih =>
    simp only [setFactTarget, List.map_cons]
    by_cases hpk : p.1 = k
    · rw [if_pos hpk]
      show alookup ((p.1, RelFact.mk t p.2.qname) :: setFactTarget rest k t) k = _
      simp only [alookup, if_pos hpk]
      rfl
    · rw [if_neg hpk]
      show alookup (p :: setFactTarget rest k t) k = _
      simp only [alookup, if_neg hpk]
      exact ih

theorem alookup_setFactTarget_isSome (m : List (String × RelFact)) (k : String)
    (t : Option String) (i : String) :
    (alookup (setFactTarget m k t) i).isSome = (alookup m i).isSome := by
  by_cases h : i = k
  · subst h
    rw [alookup_setFactTarget_self]
    cases alookup m i <;> rfl
  · rw [alookup_setFactTarget_ne m k t i h]

theorem processToRefCore_fromToMatchedIds (ixdsTarget : Option String)
    (footnotesById : List String) (rhf : Bool) (st : ToLoopState) (toId : String) :
    (processToRefCore ixdsTarget footnotesById rhf st toId).fromToMatchedIds =
      st.fromToMatchedIds := by
  simp only [processToRefCore]
  repeat' split
  all_goals rfl

theorem processToRefCore_toLabels_mono (ixdsTarget : Option String)
    (footnotesById : List String) (rhf : Bool) (st : ToLoopState) (toId a : String)
    (ha : a ∈ st.toLabels) :
    a ∈ (processToRefCore ixdsTarget footnotesById rhf st toId).toLabels := by
  simp only [processToRefCore]
  repeat' split
  all_goals first
    | exact ha
    | exact mem_addToSet_of_mem ha

theorem processToRefCore_facts_isSome (ixdsTarget : Option String)
    (footnotesById : List String) (rhf : Bool) (st : ToLoopState) (toId i : String)
    (hi : (alookup st.factsByFactID i).isSome = true) :
    (alookup (processToRefCore ixdsTarget footnotesById rhf st toId).factsByFactID
      i).isSome = true := by
  simp only [processToRefCore]
  repeat' split
  all_goals first
    | exact hi
    | (show (alookup (setFactTarget st.factsByFactID toId ixdsTarget) i).isSome = true
       rw [alookup_setFactTarget_isSome]
       exact hi)

theorem processToRefCore_toLabels_hit (ixdsTarget : Option String)
    (footnotesById : List String) (rhf : Bool) (st : ToLoopState) (toId : String)
    (hres : toId ∈ footnotesById ∨ (alookup st.factsByFactID toId).isSome = true) :
    toId ∈ (processToRefCore ixdsTarget footnotesById rhf st toId).toLabels := by
  by_cases hfo : toId ∈ footnotesById
  · simp only [processToRefCore, if_pos hfo]
    split
    · exact mem_addToSet_self
    · exact mem_addToSet_self
  · rcases hres with h | h
    · exact absurd h hfo
    · obtain ⟨f0, hf0⟩ : ∃ f0, alookup st.factsByFactID toId = some f0 := by
        cases hl : alookup st.factsByFactID toId with
        | none => rw [hl] at h; exact Bool.noConfusion h
        | some f0 => exact ⟨f0, rfl⟩
      simp only [processToRefCore, if_neg hfo, hf0]
      repeat' split
      all_goals exact mem_addToSet_self

theorem processToRef_mono (ixdsTarget : Option String) (footnotesById : List String)
    (fromLabels : List String) (rhf : Bool) (st : ToLoopState) (toId : String) :
    (∀ a ∈ st.toLabels,
      a ∈ (processToRef ixdsTarget footnotesById fromLabels rhf st toId).toLabels) ∧
    (∀ a ∈ st.fromToMatchedIds,
      a ∈ (processToRef ixdsTarget footnotesById fromLabels rhf st toId).fromToMatchedIds) ∧
    (∀ i, (alookup st.factsByFactID i).isSome = true →
      (alookup (processToRef ixdsTarget footnotesById fromLabels rhf st
        toId).factsByFactID i).isSome = true) := by
  simp only [processToRef]
  split
  · refine ⟨?_, ?_, ?_⟩
    · intro a ha
      exact processToRefCore_toLabels_mono _ _ _ _ _ _ ha
    · intro a ha
      apply mem_addToSet_of_mem
      rw [processToRefCore_fromToMatchedIds]
      exact ha
    · intro i hi
      exact processToRefCore_facts_isSome _ _ _ _ _ _ hi
  · refine ⟨?_, ?_, ?_⟩
    · intro a ha
      exact processToRefCore_toLabels_mono _ _ _ _ _ _ ha
    · intro a ha
      rw [processToRefCore_fromToMatchedIds]
      exact ha
    · intro i hi
      exact processToRefCore_facts_isSome _ _ _ _ _ _ hi

theorem processToRef_hit (ixdsTarget : Option String) (footnotesById : List String)
    (fromLabels : List String) (rhf : Bool) (st : ToLoopState) (toId : String)
    (hxfrom : toId ∈ fromLabels)
    (hres : toId ∈ footnotesById ∨ (alookup st.factsByFactID toId).isSome = true) :
    toId ∈ (processToRef ixdsTarget footnotesById fromLabels rhf st toId).toLabels ∧
    toId ∈ (processToRef ixdsTarget footnotesById fromLabels rhf st
      toId).fromToMatchedIds := by
  simp only [processToRef, if_pos hxfrom]
  exact ⟨processToRefCore_toLabels_hit _ _ _ _ _ hres, mem_addToSet_self⟩

theorem foldl_processToRef_mono (ixdsTarget : Option String)
    (footnotesById fromLabels : List String) (rhf : Bool) :
    ∀ (l : List String) (st : ToLoopState),
      (∀ a ∈ st.toLabels,
        a ∈ (l.foldl (processToRef ixdsTarget footnotesById fromLabels rhf)
          st).toLabels) ∧
      (∀ a ∈ st.fromToMatchedIds,
        a ∈ (l.foldl (processToRef ixdsTarget footnotesById fromLabels rhf)
          st).fromToMatchedIds) ∧
      (∀ i, (alookup st.factsByFactID i).isSome = true →
        (alookup (l.foldl (processToRef ixdsTarget footnotesById fromLabels rhf)
          st).factsByFactID i).isSome = true) := by
  intro l
  induction l with
  | nil => intro st; exact ⟨fun a ha => ha, fun a ha => ha, fun i hi => hi⟩
  | cons y ys ih =>
    intro st
    simp only [List.foldl_cons]
    have hstep := processToRef_mono ixdsTarget footnotesById fromLabels rhf st y
    have hih := ih (processToRef ixdsTarget footnotesById fromLabels rhf st y)
    exact ⟨fun a ha => hih.1 a (hstep.1 a ha),
      fun a ha => hih.2.1 a (hstep.2.1 a ha),
      fun i hi => hih.2.2 i (hstep.2.2 i hi)⟩

theorem foldl_processToRef_hit (ixdsTarget : Option String)
    (footnotesById fromLabels : List String) (rhf : Bool) (x : String)
    (hxfrom : x ∈ fromLabels) :
    ∀ (l : List String) (st : ToLoopState), x ∈ l →
      (x ∈ footnotesById ∨ (alookup st.factsByFactID x).isSome = true) →
      x ∈ (l.foldl (processToRef ixdsTarget footnotesById fromLabels rhf)
        st).toLabels ∧
      x ∈ (l.foldl (processToRef ixdsTarget footnotesById fromLabels rhf)
        st).fromToMatchedIds := by
  intro l
  induction l with
  | nil => intro st hmem; exact absurd hmem (List.not_mem_nil x)
  | cons y ys ih =>
    intro st hmem hres
    simp only [List.foldl_cons]
    rcases List.mem_cons.mp hmem with rfl | hmem'
    · have hstep := processToRef_hit ixdsTarget footnotesById fromLabels rhf st x
        hxfrom hres
      have hmono := foldl_processToRef_mono ixdsTarget footnotesById fromLabels rhf ys
        (processToRef ixdsTarget footnotesById fromLabels rhf st x)
      exact ⟨hmono.1 x hstep.1, hmono.2.1 x hstep.2⟩
    · apply ih _ hmem'
      rcases hres with h | h
      · exact Or.inl h
      · exact Or.inr
          ((processToRef_mono ixdsTarget footnotesById fromLabels rhf st y).2.2 x h)

/-- C1 counterexample: a relationship with `fromRefs="x" toRefs="x"` where x
resolves to a fact in the active target.  The self-loop error IS reported,
but an arc whose from-label and to-label are both "x" IS still appended to
the synthesized link, contradicting the claim's "does not create an arc". -/
theorem selfLoopArc_counterexample :
    RelErr.relationshipFromToMatch ["x"] ∈
      (processRelationship none [("x", RelFact.mk none "qx")] []
        (InlineRel.mk ["x"] ["x"]) (RelState.mk [] [])).errors ∧
    RelChild.arc "x" "x" ∈
      (processRelationship none [("x", RelFact.mk none "qx")] []
        (InlineRel.mk ["x"] ["x"]) (RelState.mk [] [])).children := by
  refine ⟨?_, ?_⟩ <;> decide

/-- C1 (amended): for every inline relationship whose fromRefs and toRefs
both contain an id x that resolves (to a fact, via factsByFactID), discovery
reports the self-loop (fromRefs/toRefs match) error with x among the matched
ids, AND an arc whose from-label and to-label are both x is nevertheless
appended to the synthesized link. -/
theorem selfLoopArc_amended (ixdsTarget : Option String)
    (factsByFactID : List (String × RelFact)) (footnotesById : List String)
    (rel : InlineRel) (st0 : RelState) (x : String) (f : RelFact)
    (hx1 : x ∈ rel.fromRefs) (hx2 : x ∈ rel.toRefs)
    (hres : alookup factsByFactID x = some f) :
    (∃ ids, RelErr.relationshipFromToMatch ids ∈
        (processRelationship ixdsTarget factsByFactID footnotesById rel st0).errors ∧
      x ∈ ids) ∧
    RelChild.arc x x ∈
      (processRelationship ixdsTarget factsByFactID footnotesById rel st0).children := by
  have hxfrom : x ∈ relFromLabels rel := mem_listToSet.mpr hx1
  have hinit : (alookup (relToLoopInit ixdsTarget factsByFactID rel
      st0).factsByFactID x).isSome = true := by
    show (alookup factsByFactID x).isSome = true
    rw [hres]
    rfl
  have hhit := foldl_processToRef_hit ixdsTarget footnotesById (relFromLabels rel)
    (relHasFromFacts ixdsTarget factsByFactID rel) x hxfrom rel.toRefs
    (relToLoopInit ixdsTarget factsByFactID rel st0) hx2 (Or.inr hinit)
  have hfin : relToLoopFinal ixdsTarget factsByFactID footnotesById rel st0 =
      rel.toRefs.foldl
        (processToRef ixdsTarget footnotesById (relFromLabels rel)
          (relHasFromFacts ixdsTarget factsByFactID rel))
        (relToLoopInit ixdsTarget factsByFactID rel st0) := rfl
  rw [← hfin] at hhit
  constructor
  · refine ⟨insertionSortB strLe
      (relToLoopFinal ixdsTarget factsByFactID footnotesById rel st0).fromToMatchedIds,
      ?_, mem_insertionSortB.mpr hhit.2⟩
    show RelErr.relationshipFromToMatch _ ∈ relArcErrs _
    have hne : (relToLoopFinal ixdsTarget factsByFactID footnotesById rel
        st0).fromToMatchedIds ≠ [] := List.ne_nil_of_mem hhit.2
    simp only [relArcErrs, if_pos hne]
    apply List.mem_append.mpr
    left
    apply List.mem_append.mpr
    right
    simp
  · show RelChild.arc x x ∈ _ ++ _ ++ relArcs (relFromLabels rel) _
    apply List.mem_append.mpr
    right
    apply List.mem_flatMap.mpr
    refine ⟨x, hxfrom, ?_⟩
    exact List.mem_map.mpr ⟨x, hhit.1, rfl⟩

/-- C1 witness: the amended theorem at the concrete self-loop relationship. -/
theorem selfLoopArc_amended_witness :
    "x" ∈ (InlineRel.mk ["x"] ["x"]).fromRefs ∧
    "x" ∈ (InlineRel.mk ["x"] ["x"]).toRefs ∧
    alookup [("x", RelFact.mk none "qx")] "x" = some (RelFact.mk none "qx") ∧
    RelChild.arc "x" "x" ∈
      (processRelationship none [("x", RelFact.mk none "qx")] []
        (InlineRel.mk ["x"] ["x"]) (RelState.mk [] [])).children := by
  have h := selfLoopArc_amended none [("x", RelFact.mk none "qx")] []
    (InlineRel.mk ["x"] ["x"]) (RelState.mk [] []) "x" (RelFact.mk none "qx")
    (by decide) (by decide) rfl
  exact ⟨by decide, by decide, rfl, h.2⟩

/-! ## Tuple assembler: nesting-cycle check (C5)

`src/arelle/inline/ixds/IxdsLoader.py` lines 628-643, `checkForTupleCycle`:
a depth-first walk over every tuple's `modelTupleFacts` carrying the open
nesting stack; a fact already on the stack yields a `tupleNestingCycle`
error whose message joins the qnames of the stack (with the repeat appended)
by "->". -/

/-- The arena of facts for the cycle check: fact `i`'s `modelTupleFacts` is
`childLists[i]` (empty for item facts), `qnames[i]` its qname, and `tuples`
the indexes of the `tupleElements` list the outer loop iterates. -/
structure TupleArena where
  childLists : List (List Nat)
  qnames : List String
  tuples : List Nat

/-- The number of facts in the arena. -/
def TupleArena.n (A : TupleArena) : Nat := A.childLists.length

/-- `fact.modelTupleFacts` of fact `i`. -/
def childrenOf (A : TupleArena) (i : Nat) : List Nat := A.childLists.getD i []

/-- Well-formedness: every child index is a fact of the arena. -/
def TupleArena.WFChildren (A : TupleArena) : Prop :=
  ∀ l ∈ A.childLists, ∀ j ∈ l, j < A.n

/-- One step of tuple membership: `b` is a direct member of `a`. -/
def IsStep (A : TupleArena) (a b : Nat) : Prop := b ∈ childrenOf A a

theorem childrenOf_lt (A : TupleArena) (hwf : A.WFChildren) (i : Nat) :
    ∀ j ∈ childrenOf A i, j < A.n := by
  intro j hj
  simp only [childrenOf, List.getD] at hj
  cases h : A.childLists.get? i with
  | none => rw [h] at hj; simp at hj
  | some l =>
    rw [h] at hj
    simp only [Option.getD_some] at hj
    exact hwf l (List.get?_mem h) j hj

/-- IxdsLoader lines 629-640, `checkForTupleCycle(parentTuple, tupleNesting)`:
walk `parentTuple.modelTupleFacts` (`cs`); a fact already in `tupleNesting`
yields the error path `tupleNesting ++ [fact]` ("makes the cycle clear") and
is not descended into; otherwise the fact is pushed and its members walked.
The Python recursion terminates because the stack never repeats a fact; here
the descent carries explicit fuel, initialized to `A.n` (enough: a stack of
distinct facts can never exceed `A.n`, see `tupleCycle_detected`). -/
def checkForTupleCycle (A : TupleArena) (fuel : Nat) (cs : List Nat)
    (tupleNesting : List Nat) : List (List Nat) :=
  match fuel, cs with
  | 0, _ => []
  | _ + 1, [] => []
  | f + 1, fact :: rest =>
    (if fact ∈ tupleNesting then [tupleNesting ++ [fact]]
     else checkForTupleCycle A f (childrenOf A fact) (tupleNesting ++ [fact]))
    ++ checkForTupleCycle A (f + 1) rest tupleNesting
termination_by (fuel, cs.length)

/-- IxdsLoader lines 642-643: `for tupleFact in tupleElements:
checkForTupleCycle(tupleFact, [tupleFact])` — the collected error paths. -/
def tupleCyclePaths (A : TupleArena) : List (List Nat) :=
  A.tuples.flatMap (fun t => checkForTupleCycle A A.n (childrenOf A t) [t])

/-- The qname of fact `i`. -/
def qnameOf (A : TupleArena) (i : Nat) : String := A.qnames.getD i ""

/-- IxdsLoader lines 633-635: each cycle error's message names the full
nesting path, qnames joined by "->"
(`tupleCycle="->".join(str(t.qname) for t in tupleNesting)`). -/
def tupleCycleMessages (A : TupleArena) : List String :=
  (tupleCyclePaths A).map (fun p => String.intercalate "->" (p.map (qnameOf A)))

theorem checkForTupleCycle_zero (A : TupleArena) (cs ns : List Nat) :
    checkForTupleCycle A 0 cs ns = [] := by
  simp [checkForTupleCycle]

theorem checkForTupleCycle_nil (A : TupleArena) (f : Nat) (ns : List Nat) :
    checkForTupleCycle A (f + 1) [] ns = [] := by
  simp [checkForTupleCycle]

theorem checkForTupleCycle_cons (A : TupleArena) (f : Nat) (fact : Nat)
    (rest ns : List Nat) :
    checkForTupleCycle A (f + 1) (fact :: rest) ns =
      (if fact ∈ ns then [ns ++ [fact]]
       else checkForTupleCycle A f (childrenOf A fact) (ns ++ [fact]))
      ++ checkForTupleCycle A (f + 1) rest ns := by
  simp [checkForTupleCycle]

theorem checkForTupleCycle_not_mem (A : TupleArena) (f : Nat) :
    ∀ (cs ns : List Nat), checkForTupleCycle A (f + 1) cs ns = [] →
      ∀ c ∈ cs, c ∉ ns := by
  intro cs
  induction cs with
  | nil => intro ns _ c hc; exact absurd hc (List.not_mem_nil c)
  | cons y rest ih =>
    intro ns h c hc
    rw [checkForTupleCycle_cons] at h
    rcases List.append_eq_nil.mp h with ⟨h1, h2⟩
    rcases List.mem_cons.mp hc with rfl | hc'
    · intro hyn
      rw [if_pos hyn] at h1
      exact List.noConfusion h1
    · exact ih ns h2 c hc'

theorem nodup_lt_length_le {l : List Nat} {n : Nat} (hnd : l.Nodup)
    (hb : ∀ x ∈ l, x < n) : l.length ≤ n := by
  have hsub : l.toFinset ⊆ Finset.range n := by
    intro x hx
    exact Finset.mem_range.mpr (hb x (List.mem_toFinset.mp hx))
  have hcard := Finset.card_le_card hsub
  rw [List.toFinset_card_of_nodup hnd] at hcard
  simpa using hcard

theorem mem_split_first {a : Nat} :
    ∀ {l : List Nat}, a ∈ l → ∃ s u, l = s ++ a :: u ∧ a ∉ s := by
  intro l
  induction l with
  | nil => intro h; exact absurd h (List.not_mem_nil a)
  | cons x xs ih =>
    intro h
    by_cases hxa : x = a
    · exact ⟨[], xs, by rw [hxa]; rfl, List.not_mem_nil a⟩
    · rcases List.mem_cons.mp h with h' | h'
      · exact absurd h'.symm hxa
      · obtain ⟨s, u, rfl, hns⟩ := ih h'
        refine ⟨x :: s, u, rfl, ?_⟩
        intro hmem
        rcases List.mem_cons.mp hmem with h'' | h''
        · exact hxa h''.symm
        · exact hns h''

theorem not_nodup_split :
    ∀ {l : List Nat}, ¬ l.Nodup → ∃ a s1 s2 s3, l = s1 ++ a :: (s2 ++ a :: s3) := by
  intro l
  induction l with
  | nil => intro h; exact absurd List.nodup_nil h
  | cons x xs ih =>
    intro h
    by_cases hx : x ∈ xs
    · obtain ⟨s, u, rfl⟩ := List.append_of_mem hx
      exact ⟨x, [], s, u, rfl⟩
    · have hxs : ¬ xs.Nodup := by
        intro hnd
        exact h (List.nodup_cons.mpr ⟨hx, hnd⟩)
      obtain ⟨a, s1, s2, s3, rfl⟩ := ih hxs
      exact ⟨a, x :: s1, s2, s3, rfl⟩

theorem extract_nodup_chain (A : TupleArena) :
    ∀ (n : Nat) (l : List Nat), l.length ≤ n → l ≠ [] →
      List.Chain' (IsStep A) l →
      ∃ l2, l2 ≠ [] ∧ l2.Nodup ∧ List.Chain' (IsStep A) l2 ∧
        l2.head? = l.head? ∧ l2.getLast? = l.getLast? ∧ ∀ x ∈ l2, x ∈ l := by
  intro n
  induction n with
  | zero =>
    intro l hlen hne hch
    cases l with
    | nil => exact absurd rfl hne
    | cons a as => simp at hlen
  | succ n ih =>
    intro l hlen hne hch
    by_cases hnd : l.Nodup
    · exact ⟨l, hne, hnd, hch, rfl, rfl, fun x hx => hx⟩
    · obtain ⟨a, s1, s2, s3, rfl⟩ := not_nodup_split hnd
      have hsplit1 := List.chain'_append.mp hch
      have hch1 : List.Chain' (IsStep A) s1 := hsplit1.1
      have hlink1 : ∀ x ∈ s1.getLast?, IsStep A x a := by
        intro x hx
        exact hsplit1.2.2 x hx a rfl
      have hch2 : List.Chain' (IsStep A) (a :: (s2 ++ a :: s3)) := hsplit1.2.1
      have hassoc : a :: (s2 ++ a :: s3) = (a :: s2) ++ (a :: s3) := by simp
      rw [hassoc] at hch2
      have hch3 : List.Chain' (IsStep A) (a :: s3) := (List.chain'_append.mp hch2).2.1
      have hchl2 : List.Chain' (IsStep A) (s1 ++ a :: s3) := by
        apply List.chain'_append.mpr
        refine ⟨hch1, hch3, ?_⟩
        intro x hx y hy
        simp only [List.head?_cons, Option.mem_def, Option.some.injEq] at hy
        rw [← hy]
        exact hlink1 x hx
      have hlenl2 : (s1 ++ a :: s3).length ≤ n := by
        simp only [List.length_append, List.length_cons] at hlen ⊢
        omega
      have hnel2 : s1 ++ a :: s3 ≠ [] := by simp
      obtain ⟨l3, h3ne, h3nd, h3ch, h3h, h3l, h3sub⟩ := ih _ hlenl2 hnel2 hchl2
      refine ⟨l3, h3ne, h3nd, h3ch, ?_, ?_, ?_⟩
      · rw [h3h]
        cases s1 with
        | nil => rfl
        | cons b bs => rfl
      · rw [h3l]
        rw [List.getLast?_append_of_ne_nil s1 (show a :: s3 ≠ [] by simp)]
        rw [List.getLast?_append_of_ne_nil s1 (show a :: (s2 ++ a :: s3) ≠ [] by simp)]
        rw [hassoc]
        rw [List.getLast?_append_of_ne_nil (a :: s2) (show a :: s3 ≠ [] by simp)]
      · intro x hx
        have := h3sub x hx
        simp only [List.mem_append, List.mem_cons] at this ⊢
        tauto

theorem checkCycle_no_backedge (A : TupleArena) (hwf : A.WFChildren) :
    ∀ (fuel : Nat) (cs nesting : List Nat) (c : Nat) (p : List Nat),
      checkForTupleCycle A fuel cs nesting = [] →
      nesting.Nodup → (∀ x ∈ nesting, x < A.n) →
      A.n + 1 ≤ fuel + nesting.length →
      (∀ x ∈ cs, x < A.n) →
      c ∈ cs →
      List.Chain' (IsStep A) (c :: p) →
      (c :: p).Nodup →
      (∀ x ∈ c :: p, x ∉ nesting) →
      ∀ m, (c :: p).getLast? = some m →
        ∀ e ∈ childrenOf A m, e ∉ nesting := by
  intro fuel
  induction fuel with
  | zero =>
    intro cs nesting c p h hnd hb hfuel
    have := nodup_lt_length_le hnd hb
    omega
  | succ f ihf =>
    intro cs
    induction cs with
    | nil =>
      intro nesting c p h hnd hb hfuel hcs hc
      exact absurd hc (List.not_mem_nil c)
    | cons y rest ihcs =>
      intro nesting c p h hnd hb hfuel hcs hc hch hpnd hdisj m hm e he
      rw [checkForTupleCycle_cons] at h
      rcases List.append_eq_nil.mp h with ⟨h1, h2⟩
      have hyn : y ∉ nesting := by
        intro hyn'
        rw [if_pos hyn'] at h1
        exact List.noConfusion h1
      rw [if_neg hyn] at h1
      rcases List.mem_cons.mp hc with rfl | hc'
      · have hcn : c < A.n := hcs c (List.mem_cons_self c rest)
        have hnd' : (nesting ++ [c]).Nodup := by
          rw [List.nodup_append]
          refine ⟨hnd, List.nodup_singleton c, ?_⟩
          intro x hx hx'
          rw [List.mem_singleton] at hx'
          subst hx'
          exact hyn hx
        have hb' : ∀ x ∈ nesting ++ [c], x < A.n := by
          intro x hx
          rcases List.mem_append.mp hx with hx | hx
          · exact hb x hx
          · rw [List.mem_singleton] at hx
            subst hx
            exact hcn
        cases p with
        | nil =>
          have hmc : m = c := by
            simp only [List.getLast?_singleton, Option.some.injEq] at hm
            exact hm.symm
          subst hmc
          rcases Nat.eq_zero_or_pos f with hf0 | hfpos
          · subst hf0
            have hle := nodup_lt_length_le hnd' hb'
            simp only [List.length_append, List.length_singleton] at hle
            omega
          · obtain ⟨f', rfl⟩ : ∃ f', f = f' + 1 := ⟨f - 1, by omega⟩
            have hnm := checkForTupleCycle_not_mem A f' _ _ h1 e he
            intro hen
            exact hnm (List.mem_append.mpr (Or.inl hen))
        | cons q p' =>
          have hq : IsStep A m q ∨ True := Or.inr trivial
          have hstep : IsStep A c q := (List.chain'_cons.mp hch).1
          have hch' : List.Chain' (IsStep A) (q :: p') := (List.chain'_cons.mp hch).2
          have hfuel' : A.n + 1 ≤ f + (nesting ++ [c]).length := by
            simp only [List.length_append, List.length_singleton]
            omega
          have hpnd' : (q :: p').Nodup := (List.nodup_cons.mp hpnd).2
          have hcnot : c ∉ q :: p' := (List.nodup_cons.mp hpnd).1
          have hdisj' : ∀ x ∈ q :: p', x ∉ nesting ++ [c] := by
            intro x hx hx'
            rcases List.mem_append.mp hx' with hx'' | hx''
            · exact hdisj x (List.mem_cons_of_mem c hx) hx''
            · rw [List.mem_singleton] at hx''
              subst hx''
              exact hcnot hx
          have hm' : (q :: p').getLast? = some m := by
            rw [List.getLast?_cons_cons] at hm
            exact hm
          have hres := ihf (childrenOf A c) (nesting ++ [c]) q p' h1 hnd' hb' hfuel'
            (childrenOf_lt A hwf c) hstep hch' hpnd' hdisj' m hm' e he
          intro hen
          exact hres (List.mem_append.mpr (Or.inl hen))
      · exact ihcs nesting c p h2 hnd hb hfuel
          (fun x hx => hcs x (List.mem_cons_of_mem y hx)) hc' hch hpnd hdisj m hm e he

/-- C5: for every arena whose tuple membership forms a cycle — some tuple `t`
reaches itself through a non-empty membership chain — the assembler's cycle
check emits at least one tuple-nesting-cycle error; each emitted error's
message names the full nesting path, qnames joined by "->"
(see `tupleCycleMessages`).  The cycle is rejected with an error, not
silently dropped. -/
theorem tupleCycle_detected (A : TupleArena) (hwf : A.WFChildren)
    (t : Nat) (ht : t ∈ A.tuples) (htn : t < A.n)
    (q : List Nat)
    (hchain : List.Chain' (IsStep A) (t :: q))
    (hlast : q.getLast? = some t) :
    tupleCycleMessages A ≠ [] := by
  intro hmsg
  have hpaths : tupleCyclePaths A = [] := List.map_eq_nil_iff.mp hmsg
  have hflat : checkForTupleCycle A A.n (childrenOf A t) [t] = [] := by
    rw [tupleCyclePaths, List.flatMap_eq_nil_iff] at hpaths
    exact hpaths t ht
  obtain ⟨fn, hfn⟩ : ∃ fn, A.n = fn + 1 := ⟨A.n - 1, by omega⟩
  have htq : t ∈ q := List.mem_of_mem_getLast? hlast
  obtain ⟨s, u, rfl, hts⟩ := mem_split_first htq
  cases s with
  | nil =>
    have hstep : IsStep A t t := by
      have hch' : List.Chain' (IsStep A) (t :: t :: u) := by simpa using hchain
      exact (List.chain'_cons.mp hch').1
    rw [hfn] at hflat
    have hnm := checkForTupleCycle_not_mem A fn (childrenOf A t) [t] hflat t hstep
    simp at hnm
  | cons s0 s' =>
    have hch1 : List.Chain' (IsStep A) ((t :: s0 :: s') ++ (t :: u)) := by
      simpa using hchain
    have hsplit := List.chain'_append.mp hch1
    have hchpre : List.Chain' (IsStep A) (t :: s0 :: s') := hsplit.1
    have hs0 : IsStep A t s0 := (List.chain'_cons.mp hchpre).1
    have hchs : List.Chain' (IsStep A) (s0 :: s') := (List.chain'_cons.mp hchpre).2
    cases hgl : (s0 :: s').getLast? with
    | none => simp at hgl
    | some m =>
      have hmt : IsStep A m t := by
        apply hsplit.2.2 m _ t rfl
        rw [List.getLast?_cons_cons]
        exact hgl
      obtain ⟨l2, hl2ne, hl2nd, hl2ch, hl2h, hl2l, hl2sub⟩ :=
        extract_nodup_chain A (s0 :: s').length (s0 :: s') le_rfl (by simp) hchs
      cases l2 with
      | nil => exact hl2ne rfl
      | cons c p =>
        have hc : c = s0 := by
          simp only [List.head?_cons, Option.some.injEq] at hl2h
          exact hl2h
        have hs0' : IsStep A t c := by
          rw [hc]
          exact hs0
        have hml2 : (c :: p).getLast? = some m := by
          rw [hl2l]
          exact hgl
        have hdisj : ∀ x ∈ c :: p, x ∉ [t] := by
          intro x hx hx'
          rw [List.mem_singleton] at hx'
          apply hts
          rw [← hx']
          exact hl2sub x hx
        have hback := checkCycle_no_backedge A hwf A.n (childrenOf A t) [t] c p hflat
          (List.nodup_singleton t)
          (by intro x hx; rw [List.mem_singleton] at hx; subst hx; exact htn)
          (by simp)
          (childrenOf_lt A hwf t) hs0' hl2ch hl2nd hdisj m hml2
        exact hback t hmt (List.mem_singleton.mpr rfl)

/-- C5 witness: tuples A and B (indexes 0 and 1) each containing the other —
the A→B→A cycle of the claim.  The check emits the error paths
[0,1,0] and [1,0,1], whose messages are "A->B->A" and "B->A->B". -/
theorem tupleCycle_detected_witness :
    (TupleArena.mk [[1], [0]] ["A", "B"] [0, 1]).WFChildren ∧
    tupleCycleMessages (TupleArena.mk [[1], [0]] ["A", "B"] [0, 1]) ≠ [] ∧
    tupleCycleMessages (TupleArena.mk [[1], [0]] ["A", "B"] [0, 1]) =
      ["A->B->A", "B->A->B"] := by
  have hwf : (TupleArena.mk [[1], [0]] ["A", "B"] [0, 1]).WFChildren := by
    intro l hl j hj
    simp only [List.mem_cons, List.not_mem_nil] at hl
    rcases hl with rfl | rfl | h
    · simp only [List.mem_singleton] at hj
      subst hj
      decide
    · simp only [List.mem_singleton] at hj
      subst hj
      decide
    · exact absurd h (by simp)
  have hchain : List.Chain' (IsStep (TupleArena.mk [[1], [0]] ["A", "B"] [0, 1]))
      [0, 1, 0] := by
    apply List.chain'_cons.mpr
    refine ⟨?_, ?_⟩
    · show (1 : Nat) ∈ childrenOf (TupleArena.mk [[1], [0]] ["A", "B"] [0, 1]) 0
      decide
    · apply List.chain'_cons.mpr
      refine ⟨?_, List.chain'_singleton 0⟩
      show (0 : Nat) ∈ childrenOf (TupleArena.mk [[1], [0]] ["A", "B"] [0, 1]) 1
      decide
  have hne := tupleCycle_detected (TupleArena.mk [[1], [0]] ["A", "B"] [0, 1]) hwf
    0 (by decide) (by decide) [1, 0] hchain rfl
  have h0 : checkForTupleCycle (TupleArena.mk [[1], [0]] ["A", "B"] [0, 1])
      2 [1] [0] = [[0, 1, 0]] := by
    show checkForTupleCycle (TupleArena.mk [[1], [0]] ["A", "B"] [0, 1])
      (1 + 1) [1] [0] = [[0, 1, 0]]
    rw [checkForTupleCycle_cons, if_neg (by decide), checkForTupleCycle_nil,
      List.append_nil]
    show checkForTupleCycle (TupleArena.mk [[1], [0]] ["A", "B"] [0, 1])
      (0 + 1) [0] [0, 1] = [[0, 1, 0]]
    rw [checkForTupleCycle_cons, if_pos (by decide), checkForTupleCycle_nil,
      List.append_nil]
    rfl
  have h1 : checkForTupleCycle (TupleArena.mk [[1], [0]] ["A", "B"] [0, 1])
      2 [0] [1] = [[1, 0, 1]] := by
    show checkForTupleCycle (TupleArena.mk [[1], [0]] ["A", "B"] [0, 1])
      (1 + 1) [0] [1] = [[1, 0, 1]]
    rw [checkForTupleCycle_cons, if_neg (by decide), checkForTupleCycle_nil,
      List.append_nil]
    show checkForTupleCycle (TupleArena.mk [[1], [0]] ["A", "B"] [0, 1])
      (0 + 1) [1] [1, 0] = [[1, 0, 1]]
    rw [checkForTupleCycle_cons, if_pos (by decide), checkForTupleCycle_nil,
      List.append_nil]
    rfl
  have hpaths : tupleCyclePaths (TupleArena.mk [[1], [0]] ["A", "B"] [0, 1]) =
      [[0, 1, 0], [1, 0, 1]] := by
    simp only [tupleCyclePaths, List.flatMap_cons, List.flatMap_nil, List.append_nil]
    show checkForTupleCycle (TupleArena.mk [[1], [0]] ["A", "B"] [0, 1]) 2 [1] [0] ++
      checkForTupleCycle (TupleArena.mk [[1], [0]] ["A", "B"] [0, 1]) 2 [0] [1] = _
    rw [h0, h1]
    rfl
  refine ⟨hwf, hne, ?_⟩
  rw [tupleCycleMessages, hpaths]
  rfl

end Arelle
